import Mathlib

/-!
Verification development for the redshift-spectra multi-tenant SQL gateway.

The Lean definitions below are a shallow embedding of the Python sources:
`spectra/utils/sql_validator.py` (SQLValidator, inject_limit),
`spectra/services/session.py` (SessionService), `spectra/services/redshift.py`
(RedshiftService: execute_statement, wait_for_statement, result parsing and
pagination) and the execute-and-fetch composition in `spectra/handlers/query.py`.

Strings are modelled as lists of characters; the regular expressions of the
source are embedded as executable character-level matchers over the ASCII
character classes used by the source patterns.  Wall-clock time and the
remote engine are modelled by explicit parameters (rational timestamps,
response scripts).
-/

namespace Spectra

/-! ## Python string primitives -/

/-- Python whitespace class, as matched by str.strip and the regex class
for whitespace (space, tab, newline, carriage return, vertical tab, form feed). -/
def pyIsSpace (c : Char) : Bool :=
  c == ' ' || c == '\t' || c == '\n' || c == '\r' || c == '\u000b' || c == '\u000c'

/-- Word character for regex word boundaries: ASCII letters, digits, underscore. -/
def isWordChar (c : Char) : Bool :=
  c.isAlpha || c.isDigit || c == '_'

/-- ASCII hexadecimal digit. -/
def isHexDigit (c : Char) : Bool :=
  c.isDigit || ('a' ≤ c && c ≤ 'f') || ('A' ≤ c && c ≤ 'F')

/-- Uppercase a character list, as Python str.upper on ASCII input. -/
def upperL (s : List Char) : List Char := s.map Char.toUpper

/-- Python str.lstrip (whitespace). -/
def lstripWs (s : List Char) : List Char := s.dropWhile pyIsSpace

/-- Python str.rstrip (whitespace). -/
def rstripWs (s : List Char) : List Char := (s.reverse.dropWhile pyIsSpace).reverse

/-- Python str.strip (whitespace on both ends). -/
def pyStrip (s : List Char) : List Char := rstripWs (lstripWs s)

/-- Python str.rstrip applied with the single character ";": removes every
trailing semicolon. -/
def rstripSemis (s : List Char) : List Char :=
  (s.reverse.dropWhile (fun c => c == ';')).reverse

/-- One pass of whitespace collapsing: each maximal run of whitespace becomes
a single space.  This is the effect of re.sub over the whitespace-run pattern
with a single-space replacement.  The boolean argument records whether the
previous character was part of a whitespace run. -/
def collapseWsAux : Bool → List Char → List Char
  | _, [] => []
  | prevSp, c :: rest =>
    if pyIsSpace c then
      if prevSp then collapseWsAux true rest
      else ' ' :: collapseWsAux true rest
    else c :: collapseWsAux false rest

/-- Collapse every whitespace run in the string to one space. -/
def collapseWs (s : List Char) : List Char := collapseWsAux false s

/-- Case-sensitive prefix test. -/
def startsWithL (pat s : List Char) : Bool :=
  match pat, s with
  | [], _ => true
  | _ :: _, [] => false
  | p :: ps, c :: cs => p == c && startsWithL ps cs

/-- Case-insensitive prefix test (ASCII case folding, as re.IGNORECASE). -/
def startsWithCI (pat s : List Char) : Bool :=
  match pat, s with
  | [], _ => true
  | _ :: _, [] => false
  | p :: ps, c :: cs => p.toUpper == c.toUpper && startsWithCI ps cs

/-- Case-sensitive substring test, as the Python `in` operator on strings. -/
def containsSub (pat : List Char) : List Char → Bool
  | [] => startsWithL pat []
  | c :: rest => startsWithL pat (c :: rest) || containsSub pat rest

/-- Word boundary on the left of the current position: the previous character
(if any) is not a word character. -/
def boundaryL (prev : Option Char) : Bool :=
  match prev with
  | none => true
  | some c => !isWordChar c

/-- Word boundary on the right: the next character (if any) is not a word
character. -/
def boundaryR (s : List Char) : Bool :=
  match s with
  | [] => true
  | c :: _ => !isWordChar c

/-- Run a position matcher (receiving the previous character and the suffix)
at every position of the string, including the end-of-string position: this is
regex search. -/
def searchFrom (p : Option Char → List Char → Bool) : Option Char → List Char → Bool
  | prev, [] => p prev []
  | prev, c :: rest => p prev (c :: rest) || searchFrom p (some c) rest

/-- Search the whole string with a position matcher. -/
def searchPat (p : Option Char → List Char → Bool) (s : List Char) : Bool :=
  searchFrom p none s

/-- Case-insensitive whole-word search: the regex consisting of a word
boundary, the keyword, and a word boundary. -/
def wordAt (kw : List Char) (prev : Option Char) (s : List Char) : Bool :=
  boundaryL prev && startsWithCI kw s && boundaryR (s.drop kw.length)

/-- Search for a whole word, case-insensitively. -/
def searchWordCI (kw : List Char) (s : List Char) : Bool :=
  searchPat (wordAt kw) s

/-- Count occurrences of a whole word in a string (case-sensitive, as
re.findall over an uppercased string). -/
def countWordAux (kw : List Char) : Option Char → List Char → Nat
  | prev, [] =>
    if boundaryL prev && startsWithL kw [] && boundaryR [] then 1 else 0
  | prev, c :: rest =>
    (if boundaryL prev && startsWithL kw (c :: rest) &&
        boundaryR ((c :: rest).drop kw.length) then 1 else 0) +
    countWordAux kw (some c) rest

/-- Count whole-word occurrences. -/
def countWord (kw : List Char) (s : List Char) : Nat := countWordAux kw none s

/-- Digit list to number, as Python int on a decimal digit string. -/
def digitsToNat (ds : List Char) : Nat :=
  ds.foldl (fun acc c => acc * 10 + (c.toNat - '0'.toNat)) 0

/-- The single-quote character. -/
def squote : Char := Char.ofNat 39

/-! ## SQLValidator: normalization and statement-type detection
(spectra/utils/sql_validator.py) -/

/-- SQLValidator._normalize_sql: strip surrounding whitespace, remove trailing
semicolons, collapse whitespace runs. -/
def normalizeSqlL (s : List Char) : List Char :=
  collapseWs (rstripSemis (pyStrip s))

/-- String-level wrapper for SQLValidator._normalize_sql. -/
def normalizeSql (s : String) : String := ⟨normalizeSqlL s.data⟩

/-- SQLValidator.FORBIDDEN_STATEMENTS, in source order. -/
def forbiddenStatements : List String :=
  ["INSERT", "UPDATE", "DELETE", "DROP", "CREATE", "ALTER", "TRUNCATE",
   "GRANT", "REVOKE", "VACUUM", "ANALYZE", "COPY", "UNLOAD", "CALL",
   "EXECUTE", "PREPARE"]

/-- First whitespace-delimited word of a character list. -/
def firstWordL (s : List Char) : List Char := s.takeWhile (fun c => !pyIsSpace c)

/-- SQLValidator._detect_statement_type on an already-normalized string:
uppercase and strip, treat a leading WITH containing SELECT as SELECT, then
match leading forbidden keywords, then SELECT, else the first word (or the
sentinel EMPTY for an empty string). -/
def detectStatementType (s : List Char) : String :=
  let u := pyStrip (upperL s)
  if startsWithL "WITH".data u then
    if containsSub "SELECT".data u then "SELECT" else "WITH"
  else
    match forbiddenStatements.find? (fun st => startsWithL st.data u) with
    | some st => st
    | none =>
      if startsWithL "SELECT".data u then "SELECT"
      else if u.isEmpty then "EMPTY"
      else ⟨firstWordL u⟩

/-! ## SQLValidator: injection-pattern matchers
Each matcher embeds one regex of SQLValidator.INJECTION_PATTERNS (compiled
with IGNORECASE and DOTALL) as a position matcher. -/

/-- Trailing-comment pattern: two dashes followed only by whitespace up to the
end of the string. -/
def trailingCommentAt (_prev : Option Char) (s : List Char) : Bool :=
  match s with
  | '-' :: '-' :: rest => rest.all pyIsSpace
  | _ => false

/-- Block-comment pattern: an opening comment marker with a closing marker
somewhere after it. -/
def blockCommentAt (_prev : Option Char) (s : List Char) : Bool :=
  match s with
  | '/' :: '*' :: rest => containsSub ['*', '/'] rest
  | _ => false

/-- After a quote: optional whitespace then a semicolon. -/
def quoteSemiBranch (r : List Char) : Bool :=
  match r.dropWhile pyIsSpace with
  | ';' :: _ => true
  | _ => false

/-- After a quote: mandatory whitespace, the keyword, mandatory whitespace. -/
def quoteKwBranch (kw : List Char) (r : List Char) : Bool :=
  match r with
  | c :: _ =>
    pyIsSpace c &&
      (let r1 := r.dropWhile pyIsSpace
       startsWithCI kw r1 &&
         (match r1.drop kw.length with
          | d :: _ => pyIsSpace d
          | [] => false))
  | [] => false

/-- String-escape pattern: a single quote followed by a semicolon (with
optional whitespace) or by a whitespace-delimited boolean operator. -/
def quoteEscapeAt (_prev : Option Char) (s : List Char) : Bool :=
  match s with
  | c :: rest =>
    c == squote &&
      (quoteSemiBranch rest || quoteKwBranch "OR".data rest ||
        quoteKwBranch "AND".data rest)
  | [] => false

/-- SELECT keyword with a right word boundary at the given position. -/
def selectWordHere (r : List Char) : Bool :=
  startsWithCI "SELECT".data r && boundaryR (r.drop 6)

/-- Union-based injection pattern: word-boundary UNION, whitespace, an
optional ALL with whitespace, then a word-bounded SELECT. -/
def unionSelectAt (prev : Option Char) (s : List Char) : Bool :=
  boundaryL prev && startsWithCI "UNION".data s &&
    (let r := s.drop 5
     let w := r.takeWhile pyIsSpace
     !w.isEmpty &&
       (let r2 := r.drop w.length
        selectWordHere r2 ||
          (startsWithCI "ALL".data r2 &&
            (let w2 := (r2.drop 3).takeWhile pyIsSpace
             !w2.isEmpty && selectWordHere ((r2.drop 3).drop w2.length)))))

/-- Search for the union-based injection pattern in a string. -/
def unionSelectSearch (s : List Char) : Bool := searchPat unionSelectAt s

/-- Stacked-query pattern: a semicolon, optional whitespace, then one of the
listed statement keywords. -/
def stackedQueryAt (_prev : Option Char) (s : List Char) : Bool :=
  match s with
  | ';' :: rest =>
    let r := rest.dropWhile pyIsSpace
    ["SELECT", "INSERT", "UPDATE", "DELETE", "DROP", "CREATE"].any
      (fun kw => startsWithCI kw.data r)
  | _ => false

/-- Hexadecimal-literal pattern: a zero, the letter x, and at least one
hexadecimal digit. -/
def hexLiteralAt (_prev : Option Char) (s : List Char) : Bool :=
  match s with
  | '0' :: x :: d :: _ => (x == 'x' || x == 'X') && isHexDigit d
  | _ => false

/-- States of the argument automaton for the CHAR-abuse pattern. -/
inductive CharArgState
  | expectDigit
  | digits
  | postDigits
deriving DecidableEq, Repr

/-- Argument automaton for the CHAR-abuse pattern: inside the parentheses,
a digit group, then any number of comma-separated digit groups, whitespace
allowed around each, closed by a parenthesis. -/
def charArgsDFA : CharArgState → List Char → Bool
  | _, [] => false
  | .expectDigit, c :: r =>
    if c.isDigit then charArgsDFA .digits r
    else if pyIsSpace c then charArgsDFA .expectDigit r
    else false
  | .digits, c :: r =>
    if c.isDigit then charArgsDFA .digits r
    else if pyIsSpace c then charArgsDFA .postDigits r
    else if c == ',' then charArgsDFA .expectDigit r
    else c == ')'
  | .postDigits, c :: r =>
    if pyIsSpace c then charArgsDFA .postDigits r
    else if c == ',' then charArgsDFA .expectDigit r
    else c == ')'

/-- CHAR-abuse pattern: word-boundary CHAR, optional whitespace, and a
parenthesized comma-separated list of digit groups. -/
def charFuncAt (prev : Option Char) (s : List Char) : Bool :=
  boundaryL prev && startsWithCI "CHAR".data s &&
    (match (s.drop 4).dropWhile pyIsSpace with
     | '(' :: r2 => charArgsDFA .expectDigit r2
     | _ => false)

/-- Keyword followed by optional whitespace and an opening parenthesis. -/
def kwParen (kw : List Char) (s : List Char) : Bool :=
  startsWithCI kw s &&
    (match (s.drop kw.length).dropWhile pyIsSpace with
     | '(' :: _ => true
     | _ => false)

/-- Time-based-attack pattern: one of the listed functions called with a
word boundary on its left. -/
def timeFuncAt (prev : Option Char) (s : List Char) : Bool :=
  boundaryL prev &&
    (kwParen "BENCHMARK".data s || kwParen "SLEEP".data s ||
      kwParen "WAITFOR".data s || kwParen "PG_SLEEP".data s)

/-- System-execution pattern: one of the listed prefixes called with a word
boundary on its left. -/
def execFuncAt (prev : Option Char) (s : List Char) : Bool :=
  boundaryL prev &&
    (kwParen "EXEC".data s || kwParen "EXECUTE".data s ||
      kwParen "XP_".data s || kwParen "SP_".data s)

/-- SQLValidator.INJECTION_PATTERNS: ordered matcher/description pairs. -/
def injectionPatterns : List ((List Char → Bool) × String) :=
  [(searchPat trailingCommentAt, "SQL comment at end of statement"),
   (searchPat blockCommentAt, "Block comment detected"),
   (searchPat quoteEscapeAt, "Potential string escape attack"),
   (unionSelectSearch, "UNION SELECT pattern detected"),
   (searchPat stackedQueryAt, "Stacked query detected"),
   (searchPat hexLiteralAt, "Hexadecimal literal detected"),
   (searchPat charFuncAt, "CHAR() function abuse"),
   (searchPat timeFuncAt, "Time-based attack pattern"),
   (searchPat execFuncAt, "System execution pattern")]

/-- SQLValidator._check_injection_patterns: the description of the first
pattern that matches, if any. -/
def checkInjectionPatterns (s : List Char) : Option String :=
  (injectionPatterns.find? (fun pd => pd.1 s)).map Prod.snd

/-! ## SQLValidator: forbidden objects, functions, complexity -/

/-- SQLValidator.FORBIDDEN_OBJECTS, in source order. -/
def forbiddenObjects : List String :=
  ["pg_catalog", "information_schema", "pg_internal", "stl_", "stv_",
   "svl_", "svv_", "sys_", "pg_"]

/-- SQLValidator._check_forbidden_objects: each object name, uppercased, is
searched with a left word boundary in the uppercased SQL (the trailing
word-character run of the regex is always satisfiable because every object
name ends in a word character). -/
def checkForbiddenObjects (s : List Char) : Option String :=
  let u := upperL s
  forbiddenObjects.find?
    (fun obj => searchPat (fun prev suf => boundaryL prev && startsWithL (upperL obj.data) suf) u)

/-- First character of a regex identifier: ASCII letter or underscore. -/
def isIdentStart (c : Char) : Bool := c.isAlpha || c == '_'

/-- Function-call extraction of _check_strict_functions: every identifier
with a left word boundary that is followed by optional whitespace and an
opening parenthesis, scanned left to right. -/
def pyFindFuncs : Option Char → List Char → List (List Char)
  | _, [] => []
  | prev, c :: rest =>
    if boundaryL prev && isIdentStart c then
      let ident := c :: rest.takeWhile isWordChar
      let after := (rest.drop (ident.length - 1)).dropWhile pyIsSpace
      match after with
      | '(' :: _ => ident :: pyFindFuncs (some c) rest
      | _ => pyFindFuncs (some c) rest
    else pyFindFuncs (some c) rest

/-- SQLValidator.FORBIDDEN_FUNCTIONS (stored lowercase in the source). -/
def forbiddenFunctions : List String :=
  ["pg_read_file", "pg_read_binary_file", "pg_ls_dir", "pg_stat_file",
   "pg_terminate_backend", "pg_cancel_backend", "pg_reload_conf",
   "inet_client_addr", "inet_server_addr", "current_setting", "set_config",
   "lo_import", "lo_export"]

/-- SQLValidator.ALLOWED_AGGREGATES. -/
def allowedAggregates : List String :=
  ["COUNT", "SUM", "AVG", "MIN", "MAX", "STDDEV", "VARIANCE",
   "PERCENTILE_CONT", "PERCENTILE_DISC", "MEDIAN", "LISTAGG", "ARRAY_AGG"]

/-- SQLValidator.ALLOWED_FUNCTIONS. -/
def allowedFunctions : List String :=
  ["UPPER", "LOWER", "TRIM", "LTRIM", "RTRIM", "LENGTH", "SUBSTRING",
   "SUBSTR", "REPLACE", "CONCAT", "LEFT", "RIGHT", "SPLIT_PART",
   "REGEXP_SUBSTR", "REGEXP_REPLACE", "REGEXP_COUNT", "INITCAP", "REVERSE",
   "DATE_TRUNC", "DATE_PART", "EXTRACT", "CURRENT_DATE", "CURRENT_TIMESTAMP",
   "NOW", "GETDATE", "DATEADD", "DATEDIFF", "TO_DATE", "TO_TIMESTAMP",
   "TO_CHAR", "ABS", "CEIL", "CEILING", "FLOOR", "ROUND", "TRUNC", "MOD",
   "POWER", "SQRT", "LOG", "LN", "EXP", "SIGN", "RANDOM", "COALESCE", "NVL",
   "NVL2", "NULLIF", "ISNULL", "CASE", "DECODE", "IFF", "CAST", "CONVERT",
   "TRY_CAST", "JSON_EXTRACT_PATH_TEXT", "JSON_EXTRACT_ARRAY_ELEMENT_TEXT",
   "JSON_SERIALIZE", "JSON_PARSE", "ROW_NUMBER", "RANK", "DENSE_RANK",
   "NTILE", "LAG", "LEAD", "FIRST_VALUE", "LAST_VALUE"]

/-- Security levels of the validator. -/
inductive SQLSecurityLevel
  | strict
  | standard
  | permissive
deriving DecidableEq, Repr

/-- Validator configuration: the constructor arguments of SQLValidator. -/
structure SQLConfig where
  securityLevel : SQLSecurityLevel := .standard
  maxQueryLength : Nat := 100000
  maxJoins : Nat := 10
  maxSubqueries : Nat := 5
  allowCte : Bool := true
  allowUnion : Bool := false
deriving DecidableEq, Repr

/-- A validation error: the error code together with the variable detail
(detected statement type, matched pattern description, or object name). -/
structure SQLValidationError where
  code : String
  detail : String
deriving DecidableEq, Repr

/-- The outcome of a successful validation, as SQLValidationResult. -/
structure SQLValidationResult where
  isValid : Bool
  sql : String
  warnings : List String
  normalizedSql : String
  queryType : String
deriving DecidableEq, Repr

/-- SQLValidator._check_strict_functions: walk the extracted function names;
a forbidden name fails immediately, and in strict mode any name outside the
allowed scalar/aggregate/control-flow sets fails. -/
def checkStrictFunctions (cfg : SQLConfig) : List (List Char) → Option SQLValidationError
  | [] => none
  | ident :: rest =>
    let u : String := ⟨upperL ident⟩
    let low : String := ⟨ident⟩
    if forbiddenFunctions.contains u then
      some ⟨"FORBIDDEN_FUNCTION", low⟩
    else if cfg.securityLevel = .strict && !allowedFunctions.contains u &&
        !allowedAggregates.contains u &&
        !(["CASE", "WHEN", "THEN", "ELSE", "END"].contains u) then
      some ⟨"FUNCTION_NOT_ALLOWED", low⟩
    else checkStrictFunctions cfg rest

/-- The non-fatal warning recorded for a bare UNION. -/
def unionWarning : String := "UNION detected - ensure this is intentional"

/-- SQLValidator.validate: the ordered validation pipeline of the source,
returning either the first validation error or the successful result. -/
def validate (cfg : SQLConfig) (sql : String) : Except SQLValidationError SQLValidationResult :=
  let norm := normalizeSqlL sql.data
  if norm.length > cfg.maxQueryLength then
    .error ⟨"QUERY_TOO_LONG", ""⟩
  else
    let qt := detectStatementType norm
    if qt ≠ "SELECT" then
      .error ⟨"FORBIDDEN_STATEMENT", qt⟩
    else
      match checkInjectionPatterns norm with
      | some desc => .error ⟨"INJECTION_DETECTED", desc⟩
      | none =>
        match checkForbiddenObjects norm with
        | some obj => .error ⟨"FORBIDDEN_OBJECT", obj⟩
        | none =>
          let funcErr :=
            if cfg.securityLevel = .strict then
              checkStrictFunctions cfg (pyFindFuncs none norm)
            else none
          match funcErr with
          | some e => .error e
          | none =>
            let u := upperL norm
            let joins := countWord "JOIN".data u
            if joins > cfg.maxJoins then
              .error ⟨"TOO_MANY_JOINS", ""⟩
            else
              let selects := countWord "SELECT".data u
              if selects - 1 > cfg.maxSubqueries then
                .error ⟨"TOO_MANY_SUBQUERIES", ""⟩
              else if !cfg.allowCte && searchWordCI "WITH".data norm then
                .error ⟨"CTE_NOT_ALLOWED", ""⟩
              else
                let warnings :=
                  if !cfg.allowUnion && searchWordCI "UNION".data norm &&
                      !unionSelectSearch norm then
                    [unionWarning]
                  else []
                .ok ⟨true, sql, warnings, ⟨norm⟩, qt⟩

/-! ## inject_limit (spectra/utils/sql_validator.py)

The trailing-LIMIT regex of the source is anchored at the end of the string,
so its unique match (when one exists) is found by parsing the reversed string:
optional trailing whitespace, a digit run, mandatory whitespace, then either
the LIMIT keyword directly or the OFFSET keyword followed by whitespace, the
limit digit run, whitespace and the LIMIT keyword; the keyword needs a word
boundary on its left.  Each run is maximal because its neighbour in the
pattern cannot continue it, which makes the backward parse deterministic and
equal to the regex search. -/

/-- The character of a decimal digit value. -/
def digitChar : Nat → Char
  | 0 => '0' | 1 => '1' | 2 => '2' | 3 => '3' | 4 => '4'
  | 5 => '5' | 6 => '6' | 7 => '7' | 8 => '8' | _ => '9'

/-- Decimal writer with explicit fuel (one digit per unit); the wrapper below
supplies enough fuel for any number. -/
def natDecimalAux : Nat → Nat → List Char
  | 0, _ => []
  | fuel + 1, n =>
    if n < 10 then [digitChar n]
    else natDecimalAux fuel (n / 10) ++ [digitChar (n % 10)]

/-- Decimal representation of a number, as written by Python string
formatting. -/
def natDecimal (n : Nat) : List Char := natDecimalAux (n + 1) n

/-- A successful trailing-LIMIT match: the text before the match, the limit
value, the digits of the limit as written, and the verbatim text of the
optional OFFSET group. -/
structure LimitMatch where
  pre : List Char
  n : Nat
  numText : List Char
  offText : List Char
deriving DecidableEq, Repr

/-- Word boundary seen from the reversed string: the list of characters that
precede the keyword in the original string, reversed. -/
def boundaryRev (r : List Char) : Bool :=
  match r with
  | [] => true
  | c :: _ => !isWordChar c

/-- Backward parse of the trailing-LIMIT pattern on the reversed string. -/
def parseTrailingLimitRev (r : List Char) : Option LimitMatch :=
  let r1 := r.dropWhile pyIsSpace
  let ds := r1.takeWhile Char.isDigit
  if ds.isEmpty then none
  else
    let r2 := r1.drop ds.length
    let w1 := r2.takeWhile pyIsSpace
    if w1.isEmpty then none
    else
      let r3 := r2.drop w1.length
      if startsWithCI "LIMIT".data.reverse r3 then
        if boundaryRev (r3.drop 5) then
          some ⟨(r3.drop 5).reverse, digitsToNat ds.reverse, ds.reverse, []⟩
        else none
      else if startsWithCI "OFFSET".data.reverse r3 then
        let r4 := r3.drop 6
        let w2 := r4.takeWhile pyIsSpace
        if w2.isEmpty then none
        else
          let r5 := r4.drop w2.length
          let ds2 := r5.takeWhile Char.isDigit
          if ds2.isEmpty then none
          else
            let r6 := r5.drop ds2.length
            let w3 := r6.takeWhile pyIsSpace
            if w3.isEmpty then none
            else
              let r7 := r6.drop w3.length
              if startsWithCI "LIMIT".data.reverse r7 then
                if boundaryRev (r7.drop 5) then
                  some ⟨(r7.drop 5).reverse, digitsToNat ds2.reverse, ds2.reverse,
                        (ds ++ w1 ++ r3.take 6 ++ w2).reverse⟩
                else none
              else none
      else none

/-- The trailing-LIMIT match of a string, as the regex search of the source. -/
def parseTrailingLimit (s : List Char) : Option LimitMatch :=
  parseTrailingLimitRev s.reverse

/-- inject_limit: strip whitespace and trailing semicolons, then apply the
three-case rule on the trailing LIMIT clause. -/
def injectLimit (sql : String) (maxRows : Nat) : String × Option Nat :=
  let s := rstripSemis (pyStrip sql.data)
  match parseTrailingLimit s with
  | some m =>
    if m.n > maxRows then
      (⟨m.pre ++ "LIMIT ".data ++ natDecimal (maxRows + 1) ++ m.offText⟩, some m.n)
    else (⟨s⟩, some m.n)
  | none => (⟨s ++ " LIMIT ".data ++ natDecimal (maxRows + 1)⟩, none)

/-! ## SessionService (spectra/services/session.py)

Timestamps are rational numbers of seconds; the durable store is the list of
stored session records in the scan order of the tenant index. -/

/-- The session-related configuration values consumed by the service. -/
structure SessionConfig where
  keepAliveSeconds : ℚ
  idleTimeoutSeconds : ℚ
deriving DecidableEq, Repr

/-- A stored session record, as RedshiftSession. -/
structure RedshiftSession where
  sessionId : String
  tenantId : String
  dbUser : String
  createdAt : ℚ
  expiresAt : ℚ
  lastUsedAt : ℚ
  isActive : Bool
deriving DecidableEq, Repr

/-- RedshiftSession.is_expired: the current time has reached the hard expiry. -/
def isExpired (s : RedshiftSession) (now : ℚ) : Bool :=
  now ≥ s.expiresAt

/-- RedshiftSession.is_idle_expired: the idle time exceeds the idle timeout. -/
def isIdleExpired (cfg : SessionConfig) (s : RedshiftSession) (now : ℚ) : Bool :=
  now - s.lastUsedAt > cfg.idleTimeoutSeconds

/-- SessionService.get_active_session: filter the tenant index by user and
active flag, then return the first record passing both expiry checks. -/
def getActiveSession (store : List RedshiftSession) (tenant user : String)
    (now : ℚ) (cfg : SessionConfig) : Option RedshiftSession :=
  (store.filter (fun s => s.tenantId == tenant && s.dbUser == user && s.isActive)).find?
    (fun s => !isExpired s now && !isIdleExpired cfg s now)

/-- SessionService.create_session: build the record stored for a new session. -/
def createSession (sessionId tenant user : String) (now : ℚ)
    (cfg : SessionConfig) : RedshiftSession :=
  ⟨sessionId, tenant, user, now, now + cfg.keepAliveSeconds, now, true⟩

/-- SessionService.update_last_used: advance the last-used timestamp of the
record with the given id. -/
def updateLastUsed (store : List RedshiftSession) (sessionId : String)
    (now : ℚ) : List RedshiftSession :=
  store.map (fun s => if s.sessionId == sessionId then { s with lastUsedAt := now } else s)

/-- SessionService.invalidate_session: mark the record with the given id
inactive. -/
def invalidateSession (store : List RedshiftSession) (sessionId : String) :
    List RedshiftSession :=
  store.map (fun s => if s.sessionId == sessionId then { s with isActive := false } else s)

/-- SessionService.get_or_create_session_id: the reused session id (touching
its last-used timestamp) or the signal to create a new session, together with
the updated store. -/
def getOrCreateSessionId (store : List RedshiftSession) (tenant user : String)
    (now : ℚ) (cfg : SessionConfig) :
    Option String × Bool × List RedshiftSession :=
  match getActiveSession store tenant user now cfg with
  | some s => (some s.sessionId, false, updateLastUsed store s.sessionId now)
  | none => (none, true, store)

/-! ## RedshiftService.execute_statement (spectra/services/redshift.py)

The remote engine is a script of responses, one consumed per submission
attempt.  The model returns the outcome (none when the script is exhausted
while the code would still be submitting), the final session store and the
number of submission attempts performed. -/

/-- One remote response to ExecuteStatement. -/
inductive EngineResp
  | ok (id : String) (sessionId : Option String)
  | clientError (code msg : String)
deriving DecidableEq, Repr

/-- The outcome of execute_statement: a statement id or a raised error. -/
inductive ExecOutcome
  | ok (statementId : String)
  | queryExecutionError (code msg : String)
deriving DecidableEq, Repr

/-- RedshiftService.execute_statement.  A session-referencing ClientError
with a tenant id present triggers a recursive resubmission with session reuse
disabled; any other ClientError raises QueryExecutionError. -/
def executeStatement (script : List EngineResp) (store : List RedshiftSession)
    (cfg : SessionConfig) (now : ℚ) (sql dbUser : String)
    (tenantId : Option String) (useSession : Bool) :
    Option ExecOutcome × List RedshiftSession × Nat :=
  match script with
  | [] => (none, store, 0)
  | resp :: rest =>
    let acquired :=
      if useSession && tenantId.isSome then
        getOrCreateSessionId store (tenantId.getD "") dbUser now cfg
      else (none, true, store)
    let reqSessionId : Option String := acquired.1
    let store1 := acquired.2.2
    match resp with
    | .ok id respSession =>
      let store2 :=
        if useSession && tenantId.isSome && respSession.isSome &&
            respSession != reqSessionId then
          createSession (respSession.getD "") (tenantId.getD "") dbUser now cfg :: store1
        else store1
      (some (.ok id), store2, 1)
    | .clientError code msg =>
      if containsSub "Session".data msg.data && tenantId.isSome then
        let existing := getOrCreateSessionId store1 (tenantId.getD "") dbUser now cfg
        let store3 :=
          match existing.1 with
          | some sid => invalidateSession existing.2.2 sid
          | none => existing.2.2
        let r := executeStatement rest store3 cfg now sql dbUser tenantId false
        (r.1, r.2.1, r.2.2 + 1)
      else (some (.queryExecutionError code msg), store1, 1)

/-! ## RedshiftService.wait_for_statement (spectra/services/redshift.py)

The remote engine is a script of (describe latency, reported status) pairs,
one consumed per poll; elapsed time starts at zero and advances by describe
latencies and sleep intervals.  The model records every engine interaction. -/

/-- An interaction of the waiter with its environment. -/
inductive WaitAction
  | describeCall
  | sleepFor (d : ℚ)
  | cancelCall
deriving DecidableEq, Repr

/-- The outcome of wait_for_statement. -/
inductive WaitOutcome
  | finished
  | queryFailed
  | queryCancelled
  | timeoutErr
deriving DecidableEq, Repr

/-- The fixed backoff ceiling of the source (max_interval). -/
def maxPollInterval : ℚ := 5

/-- The polling loop of wait_for_statement: check the deadline, describe the
statement, return on a terminal status, otherwise sleep the current interval
and multiply it by 1.5 up to the ceiling. -/
def waitAux (timeout : ℚ) : List (ℚ × String) → ℚ → ℚ → Option WaitOutcome × List WaitAction
  | script, t, ival =>
    if t ≥ timeout then (some .timeoutErr, [])
    else
      match script with
      | [] => (none, [])
      | (lat, status) :: rest =>
        let t1 := t + lat
        if status = "FINISHED" then (some .finished, [.describeCall])
        else if status = "FAILED" then (some .queryFailed, [.describeCall])
        else if status = "ABORTED" then (some .queryCancelled, [.describeCall])
        else
          let r := waitAux timeout rest (t1 + ival) (min (ival * (3 / 2)) maxPollInterval)
          (r.1, .describeCall :: .sleepFor ival :: r.2)

/-- RedshiftService.wait_for_statement with its default initial interval
left as a parameter. -/
def waitForStatement (script : List (ℚ × String)) (timeoutSeconds : ℚ)
    (pollIntervalSeconds : ℚ) : Option WaitOutcome × List WaitAction :=
  waitAux timeoutSeconds script 0 pollIntervalSeconds

/-! ## Result parsing (spectra/services/redshift.py)

_parse_csv_result and _parse_typed_result.  The delimited-text wire format is
parsed with the quote-aware splitting of the standard csv reader (comma
delimiter, double-quote quoting, a doubled quote inside a quoted field for a
literal quote, a blank line for a record with no fields); records become
insertion-ordered dictionaries, modelled as association lists. -/

/-- Raw column metadata of a wire response; absent keys are none. -/
structure ColMeta where
  name : Option String
  typeName : Option String
  label : Option String
deriving DecidableEq, Repr

/-- A parsed column descriptor, after the defaulting of the source. -/
structure ColumnDesc where
  name : String
  type : String
  label : String
deriving DecidableEq, Repr

/-- The column descriptors built from metadata, with positional fallbacks. -/
def columnsOf (meta : List ColMeta) : List ColumnDesc :=
  (meta.enum).map (fun ic =>
    let fallback := "col_" ++ toString ic.1
    let n := ic.2.name.getD fallback
    ⟨n, ic.2.typeName.getD "unknown", ic.2.label.getD n⟩)

/-- Insertion-ordered dictionary update, as a Python dict assignment. -/
def pyDictInsert {α : Type} : List (String × α) → String → α → List (String × α)
  | [], k, v => [(k, v)]
  | (k0, v0) :: rest, k, v =>
    if k0 == k then (k0, v) :: rest else (k0, v0) :: pyDictInsert rest k v

/-- Build a record dictionary from column names and positional values. -/
def buildRecord {α : Type} (names : List String) (vals : List α) :
    List (String × α) :=
  (names.zip vals).foldl (fun d kv => pyDictInsert d kv.1 kv.2) []

/-- The column name for a positional index, with the positional fallback of
_parse_typed_result. -/
def colNameAt (names : List String) (i : Nat) : String :=
  (names.get? i).getD ("col_" ++ toString i)

/-- Build a record dictionary allowing positional fallback names. -/
def buildRecordIdx {α : Type} (names : List String) (vals : List α) :
    List (String × α) :=
  (vals.enum).foldl (fun d iv => pyDictInsert d (colNameAt names iv.1) iv.2) []

/-- Parser states of the quote-aware splitter. -/
inductive CsvMode
  | fieldStart
  | unquoted
  | quoted
deriving DecidableEq, Repr

/-- A finished row: the pending reversed field and the reversed fields
collected so far. -/
def csvRowOf (fieldAcc : List Char) (rowAcc : List String) : List String :=
  ((⟨fieldAcc.reverse⟩ : String) :: rowAcc).reverse

/-- A row ended while at field start: a blank line is a record with no
fields, otherwise the pending field after a delimiter is empty. -/
def csvRowAtStart (rowAcc : List String) : List String :=
  if rowAcc.isEmpty then [] else ("" :: rowAcc).reverse

/-- Quote-aware splitting of the delimited-text encoding. -/
def csvAux : CsvMode → List Char → List Char → List String → List (List String)
  | mode, [], fieldAcc, rowAcc =>
    if mode = .fieldStart && rowAcc.isEmpty then []
    else [csvRowOf fieldAcc rowAcc]
  | .fieldStart, '"' :: t, _, rowAcc => csvAux .quoted t [] rowAcc
  | .fieldStart, ',' :: t, _, rowAcc => csvAux .fieldStart t [] ("" :: rowAcc)
  | .fieldStart, '\r' :: '\n' :: t, _, rowAcc =>
    csvRowAtStart rowAcc :: csvAux .fieldStart t [] []
  | .fieldStart, '\r' :: t, _, rowAcc =>
    csvRowAtStart rowAcc :: csvAux .fieldStart t [] []
  | .fieldStart, '\n' :: t, _, rowAcc =>
    csvRowAtStart rowAcc :: csvAux .fieldStart t [] []
  | .fieldStart, c :: t, _, rowAcc => csvAux .unquoted t [c] rowAcc
  | .unquoted, ',' :: t, fieldAcc, rowAcc =>
    csvAux .fieldStart t [] ((⟨fieldAcc.reverse⟩ : String) :: rowAcc)
  | .unquoted, '\r' :: '\n' :: t, fieldAcc, rowAcc =>
    csvRowOf fieldAcc rowAcc :: csvAux .fieldStart t [] []
  | .unquoted, '\r' :: t, fieldAcc, rowAcc =>
    csvRowOf fieldAcc rowAcc :: csvAux .fieldStart t [] []
  | .unquoted, '\n' :: t, fieldAcc, rowAcc =>
    csvRowOf fieldAcc rowAcc :: csvAux .fieldStart t [] []
  | .unquoted, c :: t, fieldAcc, rowAcc => csvAux .unquoted t (c :: fieldAcc) rowAcc
  | .quoted, '"' :: '"' :: t, fieldAcc, rowAcc => csvAux .quoted t ('"' :: fieldAcc) rowAcc
  | .quoted, '"' :: t, fieldAcc, rowAcc => csvAux .unquoted t fieldAcc rowAcc
  | .quoted, c :: t, fieldAcc, rowAcc => csvAux .quoted t (c :: fieldAcc) rowAcc

/-- Split a delimited-text payload into rows of field strings. -/
def csvSplit (s : List Char) : List (List String) := csvAux .fieldStart s [] []

/-- A raw delimited-text wire response. -/
structure CsvResponse where
  columnMetadata : List ColMeta
  formattedRecords : String
  totalNumRows : Option Nat
  nextToken : Option String
deriving DecidableEq, Repr

/-- A parsed result page. -/
structure ParsedResult (α : Type) where
  columns : List ColumnDesc
  records : List (List (String × α))
  totalRows : Nat
  nextToken : Option String
  format : String
deriving DecidableEq, Repr

/-- RedshiftService._parse_csv_result: quote-aware split, keep the rows whose
width matches the column count, and map empty fields to null. -/
def parseCsvResult (resp : CsvResponse) : ParsedResult (Option String) :=
  let columns := columnsOf resp.columnMetadata
  let names := columns.map ColumnDesc.name
  let records :=
    if resp.formattedRecords.data.isEmpty then []
    else
      ((csvSplit resp.formattedRecords.data).filter
          (fun row => row.length == names.length)).map
        (fun row => buildRecord names
          (row.map (fun v => if v == "" then none else some v)))
  ⟨columns, records, resp.totalNumRows.getD records.length, resp.nextToken, "CSV"⟩

/-- A typed wire cell, tagged with exactly one of the field keys recognized
by _parse_typed_result. -/
inductive TypedCell
  | stringValue (s : String)
  | longValue (n : Int)
  | doubleValue (q : ℚ)
  | booleanValue (b : Bool)
  | blobValue (bytes : List Nat)
  | isNullCell (flag : Bool)
deriving DecidableEq, Repr

/-- A decoded record value. -/
inductive RSVal
  | vstr (s : String)
  | vint (n : Int)
  | vdouble (q : ℚ)
  | vbool (b : Bool)
  | vblob (bytes : List Nat)
  | vnull
deriving DecidableEq, Repr

/-- The value extraction chain of _parse_typed_result: each tag yields its
payload and a null tag (or an unrecognized cell) yields null. -/
def decodeCell : TypedCell → RSVal
  | .stringValue s => .vstr s
  | .longValue n => .vint n
  | .doubleValue q => .vdouble q
  | .booleanValue b => .vbool b
  | .blobValue bs => .vblob bs
  | .isNullCell _ => .vnull

/-- A raw typed wire response. -/
structure TypedResponse where
  columnMetadata : List ColMeta
  records : List (List TypedCell)
  totalNumRows : Option Nat
  nextToken : Option String
deriving DecidableEq, Repr

/-- RedshiftService._parse_typed_result. -/
def parseTypedResult (resp : TypedResponse) : ParsedResult RSVal :=
  let columns := columnsOf resp.columnMetadata
  let names := columns.map ColumnDesc.name
  let records := resp.records.map (fun row => buildRecordIdx names (row.map decodeCell))
  ⟨columns, records, resp.totalNumRows.getD records.length, resp.nextToken, "TYPED"⟩

/-! ## Wire encoders, modelled from the spec

The remote engine's side of the two wire encodings is not part of this
repository; the encoders below follow the specification of the formats
(delimited text: rows as comma-separated fields with quote-aware escaping and
an empty field for null; typed cells: one tag per value). -/

/-- Modelled from the spec: the quote doubling applied inside a quoted
delimited-text field. -/
def escapeQuotes (s : List Char) : List Char :=
  s.flatMap (fun c => if c = '"' then ['"', '"'] else [c])

/-- Modelled from the spec: the delimited-text encoding of one field; a null
value becomes an empty field, a string value is quoted with doubled inner
quotes. -/
def encodeCsvField : Option String → List Char
  | none => []
  | some s => '"' :: escapeQuotes s.data ++ ['"']

/-- Modelled from the spec: the textual content the delimited encoding writes
for a value: a null value writes nothing, a string writes itself. -/
def fieldStr : Option String → String
  | none => ""
  | some s => s

/-- Modelled from the spec: one encoded row, fields comma-separated, row
terminated by a carriage return and newline. -/
def encodeCsvRow (r : List (Option String)) : List Char :=
  List.intercalate [','] (r.map encodeCsvField) ++ ['\r', '\n']

/-- Modelled from the spec: the delimited-text payload of a row set. -/
def encodeCsvRows (rows : List (List (Option String))) : List Char :=
  (rows.map encodeCsvRow).flatten

/-- Modelled from the spec: a full delimited-text wire response for the given
column names and rows. -/
def encodeCsvResponse (names : List String) (rows : List (List (Option String))) :
    CsvResponse :=
  ⟨names.map (fun n => ⟨some n, some "varchar", none⟩), ⟨encodeCsvRows rows⟩, none, none⟩

/-- Modelled from the spec: the typed-cell encoding of one value, tagging it
with its type. -/
def encodeTypedCell : RSVal → TypedCell
  | .vstr s => .stringValue s
  | .vint n => .longValue n
  | .vdouble q => .doubleValue q
  | .vbool b => .booleanValue b
  | .vblob bs => .blobValue bs
  | .vnull => .isNullCell true

/-- Modelled from the spec: a full typed-cell wire response. -/
def encodeTypedResponse (names : List String) (rows : List (List RSVal)) :
    TypedResponse :=
  ⟨names.map (fun n => ⟨some n, some "varchar", none⟩),
   rows.map (fun r => r.map encodeTypedCell), none, none⟩

/-! ## Result pagination (spectra/services/redshift.py)

For pagination the remote result set is a list of pages of already-parsed
records; the continuation token is modelled by the remaining pages, and a
flag says whether the engine accepts the delimited-text request format
(rejecting it with a ValidationException otherwise).  Every page request is
recorded as (page number, format asked) with true for the delimited format. -/

/-- One remote result page: its records and the server-reported total. -/
structure RSPage (α : Type) where
  records : List α
  totalNumRows : Option Nat
deriving DecidableEq, Repr

/-- A page-level result as consumed by the pagination loop. -/
structure PageResult (α : Type) where
  columns : List String
  records : List α
  totalRows : Nat
  next : Option (List (RSPage α))
  format : String
deriving DecidableEq, Repr

/-- RedshiftService.get_statement_result on an available page: request it in
the chosen format; when the delimited format is rejected, retry the same
request in the typed format.  Returns the parsed page and the formats
requested. -/
def getStatementResultPage {α : Type} (columns : List String) (csvOk : Bool)
    (p : RSPage α) (rest : List (RSPage α)) (useCsv : Bool) :
    PageResult α × List Bool :=
  let mk := fun fmt =>
    ({ columns := columns, records := p.records,
       totalRows := p.totalNumRows.getD p.records.length,
       next := if rest.isEmpty then none else some rest,
       format := fmt } : PageResult α)
  if useCsv then
    if csvOk then (mk "CSV", [true])
    else (mk "TYPED", [true, false])
  else (mk "TYPED", [false])

/-- RedshiftService.get_statement_result: none models the error raised for an
invalid continuation token. -/
def getStatementResult {α : Type} (columns : List String) (csvOk : Bool)
    (pages : List (RSPage α)) (useCsv : Bool) :
    Option (PageResult α) × List Bool :=
  match pages with
  | [] => (none, [useCsv])
  | p :: rest =>
    let r := getStatementResultPage columns csvOk p rest useCsv
    (some r.1, r.2)

/-- The accumulated outcome of get_all_statement_results. -/
structure GetAllResult (α : Type) where
  columns : List String
  records : List α
  totalRows : Nat
  format : String
  pagesFetched : Nat
deriving DecidableEq, Repr

/-- The pagination loop of get_all_statement_results: fetch a page, capture
columns from the first page, accumulate records, remember a nonzero
server-reported total and the page format, stop (truncating the accumulated
list) once a truthy row bound is reached, otherwise follow the continuation
token. -/
def getAllAux {α : Type} (columns : List String) (csvOk useCsv : Bool)
    (maxRows : Option Nat) :
    List (RSPage α) → List α → List String → Nat → String → Nat →
    Option (List α × List String × Nat × String × Nat) × List (Nat × Bool)
  | [], _, _, _, _, pageCount => (none, [(pageCount + 1, useCsv)])
  | p :: rest, acc, cols, total, fmt, pageCount =>
    let pc := pageCount + 1
    let fetch := getStatementResultPage columns csvOk p rest useCsv
    let r := fetch.1
    let trace := fetch.2.map (fun b => (pc, b))
    let cols1 := if cols.isEmpty then r.columns else cols
    let acc1 := acc ++ r.records
    let total1 := if r.totalRows ≠ 0 then r.totalRows else total
    let fmt1 := if r.format ≠ "" then r.format else fmt
    if (maxRows.getD 0 ≠ 0) && (acc1.length ≥ maxRows.getD 0) then
      (some (acc1.take (maxRows.getD 0), cols1, total1, fmt1, pc), trace)
    else
      match rest with
      | [] => (some (acc1, cols1, total1, fmt1, pc), trace)
      | q :: rest2 =>
        let deeper := getAllAux columns csvOk useCsv maxRows (q :: rest2)
            acc1 cols1 total1 fmt1 pc
        (deeper.1, trace ++ deeper.2)

/-- RedshiftService.get_all_statement_results: the merged result (none when
the model engine fails a page request) and the trace of page requests. -/
def getAllStatementResults {α : Type} (columns : List String) (csvOk : Bool)
    (useCsv : Bool) (maxRows : Option Nat) (pages : List (RSPage α)) :
    Option (GetAllResult α) × List (Nat × Bool) :=
  let r := getAllAux columns csvOk useCsv maxRows pages [] []
      0 (if useCsv then "CSV" else "TYPED") 0
  match r.1 with
  | none => (none, r.2)
  | some (records, cols, total, fmt, pc) =>
    (some ⟨cols, records, if total ≠ 0 then total else records.length, fmt, pc⟩, r.2)

/-! ## The execute-and-fetch composition (spectra/handlers/query.py)

submit_query validates, injects the row cap, submits, waits, then fetches at
most cap + 1 records and converts the extra record into the truncation flag.
The fragment modelled here is the limit/fetch/truncation core. -/

/-- The response fields of the composition relevant to row capping. -/
structure SubmitOutcome (α : Type) where
  limitedSql : String
  originalLimit : Option Nat
  records : List α
  rawCount : Nat
  truncated : Bool
deriving DecidableEq, Repr

/-- The row-cap core of submit_query: inject the cap into the SQL, fetch with
a bound of one more than the cap, report truncation and drop the extra
record. -/
def submitQueryCore {α : Type} (maxRows : Nat) (columns : List String)
    (csvOk : Bool) (pages : List (RSPage α)) (sql : String) :
    Option (SubmitOutcome α) :=
  let lim := injectLimit sql maxRows
  match (getAllStatementResults columns csvOk true (some (maxRows + 1)) pages).1 with
  | none => none
  | some result =>
    let fetched := result.records
    let truncated := fetched.length > maxRows
    some ⟨lim.1, lim.2, if truncated then fetched.take maxRows else fetched,
          fetched.length, truncated⟩

/-! ## Specification-side definitions used by the theorem statements -/

/-- Session-reuse eligibility exactly as the specification words it: active,
strictly before the hard expiry, and idle time strictly below the idle
timeout.  Stated for comparison with the eligibility the code implements. -/
def claimSessionEligible (cfg : SessionConfig) (s : RedshiftSession) (now : ℚ) : Bool :=
  s.isActive && now < s.expiresAt && now - s.lastUsedAt < cfg.idleTimeoutSeconds

/-- Session-reuse eligibility as the code implements it: active, strictly
before the hard expiry, and idle time at most the idle timeout. -/
def codeSessionEligible (cfg : SessionConfig) (s : RedshiftSession) (now : ℚ) : Bool :=
  s.isActive && now < s.expiresAt && now - s.lastUsedAt ≤ cfg.idleTimeoutSeconds

/-- The backoff interval before the k-th sleep: the base interval, multiplied
by one and a half after every poll and capped at the ceiling. -/
def backoffSeq (base : ℚ) : Nat → ℚ
  | 0 => base
  | k + 1 => min (backoffSeq base k * (3 / 2)) maxPollInterval

/-- Elapsed time at the start of iteration k of the polling loop, given the
current interval and the describe latencies still ahead. -/
def elapsedFrom (ival : ℚ) : List ℚ → Nat → ℚ
  | _, 0 => 0
  | [], _ + 1 => 0
  | lat :: rest, k + 1 =>
    lat + ival + elapsedFrom (min (ival * (3 / 2)) maxPollInterval) rest k

/-- Terminal statuses of the polling state machine. -/
def isTerminalStatus (status : String) : Bool :=
  status == "FINISHED" || status == "FAILED" || status == "ABORTED"

/-- Index of the first terminal poll of a script (the script length when
every poll is non-terminal). -/
def firstTerminalIdx (script : List (ℚ × String)) : Nat :=
  script.findIdx (fun e => isTerminalStatus e.2)

/-- The sleep durations of an action trace. -/
def sleepsOf (acts : List WaitAction) : List ℚ :=
  acts.filterMap (fun a =>
    match a with
    | .sleepFor d => some d
    | _ => none)

/-- The field values of a record dictionary. -/
def recordValues {α : Type} (r : List (String × α)) : List α := r.map Prod.snd

/-- The field strings a delimited-text row decodes to before null mapping. -/
def rowStrings (r : List (Option String)) : List String :=
  r.map (fun v => v.getD "")

/-- Decidable equality of validation outcomes. -/
instance {ε α : Type} [DecidableEq ε] [DecidableEq α] : DecidableEq (Except ε α) := fun x y =>
  match x, y with
  | .error a, .error b =>
    if h : a = b then .isTrue (by rw [h]) else .isFalse (by simp [h])
  | .ok a, .ok b =>
    if h : a = b then .isTrue (by rw [h]) else .isFalse (by simp [h])
  | .error _, .ok _ => .isFalse (by simp)
  | .ok _, .error _ => .isFalse (by simp)

/-! ## Theorems -/

/-- On an empty store, acquiring a session yields the create-new signal. -/
theorem getOrCreate_nil (tenant user : String) (now : ℚ) (cfg : SessionConfig) :
    getOrCreateSessionId [] tenant user now cfg = (none, true, []) := rfl

/-- With an empty session store, a script of session-referencing failures
makes execute_statement consume the whole script: one resubmission per
failure, with no bound on the number of attempts. -/
theorem executeStatement_sessionErr_replicate (n : Nat) (us : Bool) :
    executeStatement
      (List.replicate n (.clientError "ValidationException" "Session bad-session is not valid"))
      [] ⟨3600, 1800⟩ 0 "SELECT 1" "u" (some "t") us = (none, [], n) := by
  induction n generalizing us with
  | zero => rfl
  | succ n ih =>
    rw [List.replicate_succ]
    simp only [executeStatement]
    rw [show containsSub "Session".data "Session bad-session is not valid".data = true from by decide]
    simp [getOrCreate_nil, ih false]

/-- C1: the session-error retry of execute_statement is naive recursion whose
guard does not consult the use_session flag.  With an engine that fails twice
with session-referencing messages and then succeeds, the code performs three
submission attempts and returns the third response; and for every n, a script
of n session-referencing failures is consumed entirely (n attempts), so no
second failure is ever surfaced as an ExecutionError while the engine keeps
mentioning the session. -/
theorem C1_code_bug_eval :
    executeStatement
      [.clientError "ValidationException" "Session bad-session is not valid",
       .clientError "ValidationException" "Session bad-session is not valid",
       .ok "stmt-1" none]
      [] ⟨3600, 1800⟩ 0 "SELECT 1" "u" (some "t") true =
      (some (.ok "stmt-1"), [], 3) ∧
    ∀ n : Nat,
      executeStatement
        (List.replicate n (.clientError "ValidationException" "Session bad-session is not valid"))
        [] ⟨3600, 1800⟩ 0 "SELECT 1" "u" (some "t") true = (none, [], n) :=
  ⟨by decide, fun n => executeStatement_sessionErr_replicate n true⟩

/-- C6 counterexample: with an engine that rejects the delimited format and a
two-page result, the second page is again requested in the delimited format
after the first page already fell back: the fallback is not remembered for
the remainder of the call. -/
theorem C6_counterexample :
    (getAllStatementResults ["c"] false true none
        ([⟨[1], none⟩, ⟨[2], none⟩] : List (RSPage Nat))).2 =
      [(1, true), (1, false), (2, true), (2, false)] ∧
    (2, true) ∈ (getAllStatementResults ["c"] false true none
        ([⟨[1], none⟩, ⟨[2], none⟩] : List (RSPage Nat))).2 := by
  constructor
  · rfl
  · rw [show (getAllStatementResults ["c"] false true none
        ([⟨[1], none⟩, ⟨[2], none⟩] : List (RSPage Nat))).2 =
      [(1, true), (1, false), (2, true), (2, false)] from rfl]
    decide

/-- Prepending the first value to a shifted range of list values. -/
theorem flatten_range_shift {β : Type} (f : Nat → List β) (k : Nat) :
    f 0 ++ ((List.range k).map (fun i => f (i + 1))).flatten =
      ((List.range (k + 1)).map f).flatten := by
  rw [List.range_succ_eq_map]
  simp only [List.map_cons, List.map_map, List.flatten_cons]
  refine congrArg₂ List.append rfl (congrArg List.flatten (congrArg₂ List.map ?_ rfl))
  funext i
  simp [Function.comp, Nat.succ_eq_add_one]

/-- Shifting the page counter by one in a request trace. -/
theorem traceShift (pc k : Nat) :
    [(pc + 1, true), (pc + 1, false)] ++
      ((List.range (k + 1)).map
        (fun i => [(pc + 1 + i + 1, true), (pc + 1 + i + 1, false)])).flatten =
    ((List.range (k + 1 + 1)).map
      (fun i => [(pc + i + 1, true), (pc + i + 1, false)])).flatten := by
  have hfun : (fun i => [(pc + 1 + i + 1, true), (pc + 1 + i + 1, false)]) =
      (fun i => [(pc + (i + 1) + 1, true), (pc + (i + 1) + 1, false)]) := by
    funext i
    rw [show pc + 1 + i + 1 = pc + (i + 1) + 1 from by omega]
  rw [hfun]
  exact flatten_range_shift (fun i => [(pc + i + 1, true), (pc + i + 1, false)]) (k + 1)

/-- The pagination loop with a rejecting engine: every iteration issues a
delimited-format request followed by a typed retry. -/
theorem getAllAux_reject {α : Type} (columns : List String) (maxRows : Option Nat) :
    ∀ (pages : List (RSPage α)) (acc : List α) (cols : List String)
      (total : Nat) (fmt : String) (pc : Nat), pages ≠ [] →
      ∃ (recs : List α) (c2 : List String) (t2 : Nat) (f2 : String) (k : Nat),
        getAllAux columns false true maxRows pages acc cols total fmt pc =
          (some (recs, c2, t2, f2, pc + k + 1),
           ((List.range (k + 1)).map
             (fun i => [(pc + i + 1, true), (pc + i + 1, false)])).flatten) := by
  intro pages
  induction pages with
  | nil => intro _ _ _ _ _ h; exact absurd rfl h
  | cons p rest ih =>
    intro acc cols total fmt pc _
    have hfetch : getStatementResultPage columns false p rest true =
        (⟨columns, p.records, p.totalNumRows.getD p.records.length,
          if rest.isEmpty then none else some rest, "TYPED"⟩, [true, false]) := rfl
    rw [getAllAux.eq_def]
    simp only [hfetch]
    split
    · exact ⟨_, _, _, _, 0, rfl⟩
    · split
      · exact ⟨_, _, _, _, 0, rfl⟩
      · obtain ⟨recs, c2, t2, f2, k, hres⟩ := ih (acc ++ p.records)
          (if cols.isEmpty then columns else cols)
          (if p.totalNumRows.getD p.records.length ≠ 0 then
            p.totalNumRows.getD p.records.length else total)
          (if ("TYPED" : String) ≠ "" then "TYPED" else fmt) (pc + 1) (by simp)
        refine ⟨recs, c2, t2, f2, k + 1, ?_⟩
        rw [hres]
        have harith : pc + 1 + k + 1 = pc + (k + 1) + 1 := by omega
        simp only [List.map_cons, List.map_nil]
        rw [harith, traceShift]

/-- C6 amended: the encoding fallback of the paginator is decided per page
fetch, not once per call.  Within one page fetch a rejected delimited request
falls back to the typed format exactly once; but across a fetch-all call each
page is first requested in the delimited format again, so a call whose engine
rejects that format issues a delimited request followed by a typed retry for
every single page. -/
theorem C6_amended {α : Type} (columns : List String) (maxRows : Option Nat)
    (pages : List (RSPage α)) (h : pages ≠ []) :
    (∃ r, (getAllStatementResults columns false true maxRows pages).1 = some r ∧
      (getAllStatementResults columns false true maxRows pages).2 =
        ((List.range r.pagesFetched).map
          (fun i => [(i + 1, true), (i + 1, false)])).flatten) ∧
    (∃ pr, getStatementResult columns false pages true = (some pr, [true, false]) ∧
      pr.format = "TYPED") := by
  constructor
  · match pages, h with
    | p :: rest, _ =>
      obtain ⟨recs, c2, t2, f2, k, hres⟩ :=
        getAllAux_reject columns maxRows (p :: rest) [] [] 0 "CSV" 0 (by simp)
      refine ⟨⟨c2, recs, if t2 ≠ 0 then t2 else recs.length, f2, 0 + k + 1⟩, ?_, ?_⟩
      · simp only [getAllStatementResults, if_true, hres]
      · simp only [getAllStatementResults, if_true, hres, Nat.zero_add]
  · match pages, h with
    | p :: rest, _ =>
      exact ⟨_, rfl, rfl⟩

/-- C6 witness: the amended statement at a concrete two-page result set. -/
theorem C6_witness :
    ((∃ r, (getAllStatementResults ["c"] false true none
          ([⟨[1], none⟩, ⟨[2], none⟩] : List (RSPage Nat))).1 = some r ∧
        (getAllStatementResults ["c"] false true none
          ([⟨[1], none⟩, ⟨[2], none⟩] : List (RSPage Nat))).2 =
          ((List.range r.pagesFetched).map
            (fun i => [(i + 1, true), (i + 1, false)])).flatten) ∧
    (∃ pr, getStatementResult ["c"] false
        ([⟨[1], none⟩, ⟨[2], none⟩] : List (RSPage Nat)) true = (some pr, [true, false]) ∧
      pr.format = "TYPED")) :=
  C6_amended ["c"] none ([⟨[1], none⟩, ⟨[2], none⟩] : List (RSPage Nat)) (by simp)

/-- C7 counterexample: a stored session whose idle time equals the idle
timeout exactly is still returned for reuse by the code, although the
specification's strict eligibility predicate rejects it. -/
theorem C7_counterexample :
    getActiveSession [⟨"sid", "t", "u", 0, 1000, 90, true⟩] "t" "u" 100 ⟨1000, 10⟩ =
      some ⟨"sid", "t", "u", 0, 1000, 90, true⟩ ∧
    claimSessionEligible ⟨1000, 10⟩ ⟨"sid", "t", "u", 0, 1000, 90, true⟩ 100 = false := by
  constructor
  · simp [getActiveSession, List.filter, List.find?, isExpired, isIdleExpired]
    norm_num
  · simp [claimSessionEligible]
    norm_num

/-- Both expiry checks of the code amount to the non-strict eligibility
predicate. -/
theorem sessionEligible_eq (cfg : SessionConfig) (s : RedshiftSession) (now : ℚ) :
    (s.isActive && !isExpired s now && !isIdleExpired cfg s now) =
      codeSessionEligible cfg s now := by
  simp only [isExpired, isIdleExpired, codeSessionEligible, ← decide_not, not_le, not_lt]

/-- Searching a filtered list is searching with the conjoined predicate. -/
theorem find?_filter_eq {α : Type} (l : List α) (p q : α → Bool) :
    (l.filter p).find? q = l.find? (fun a => p a && q a) := by
  induction l with
  | nil => rfl
  | cons a l ih =>
    rw [List.filter_cons]
    by_cases hp : p a = true
    · rw [if_pos hp]
      by_cases hq : q a = true
      · rw [List.find?_cons_of_pos _ hq, List.find?_cons_of_pos]
        simp [hp, hq]
      · rw [List.find?_cons_of_neg _ (by simpa using hq), ih, List.find?_cons_of_neg]
        simp [hp, hq]
    · rw [if_neg hp, ih, List.find?_cons_of_neg]
      simp [hp]

/-- Scanning a tenant-and-user filtered store for the first record passing
the expiry checks is a search for the first eligible record. -/
theorem getActiveSession_eq_find (store : List RedshiftSession)
    (tenant user : String) (now : ℚ) (cfg : SessionConfig) :
    getActiveSession store tenant user now cfg =
      (store.filter (fun s => s.tenantId == tenant && s.dbUser == user)).find?
        (fun s => codeSessionEligible cfg s now) := by
  unfold getActiveSession
  rw [find?_filter_eq, find?_filter_eq]
  congr 1
  funext s
  rw [← sessionEligible_eq cfg s now]
  simp [Bool.and_assoc]

/-- C7 amended: a stored session is eligible for reuse iff its active flag is
set, the current time is strictly before its hard expiry, and the idle time
is at most (not strictly below) the idle timeout; acquisition returns the
first eligible record of the (tenant, user) scan with its last-used
timestamp advanced, the create-new signal otherwise, and a created session
hard-expires exactly the keep-alive duration after its creation time. -/
theorem C7_amended (store : List RedshiftSession) (tenant user : String)
    (now : ℚ) (cfg : SessionConfig) :
    (∀ s : RedshiftSession,
      (s.isActive && !isExpired s now && !isIdleExpired cfg s now) =
        (s.isActive && now < s.expiresAt && now - s.lastUsedAt ≤ cfg.idleTimeoutSeconds)) ∧
    getActiveSession store tenant user now cfg =
      (store.filter (fun s => s.tenantId == tenant && s.dbUser == user)).find?
        (fun s => codeSessionEligible cfg s now) ∧
    (∀ s, getActiveSession store tenant user now cfg = some s →
      getOrCreateSessionId store tenant user now cfg =
        (some s.sessionId, false, updateLastUsed store s.sessionId now)) ∧
    (getActiveSession store tenant user now cfg = none →
      getOrCreateSessionId store tenant user now cfg = (none, true, store)) ∧
    (∀ sid, (createSession sid tenant user now cfg).expiresAt =
        (createSession sid tenant user now cfg).createdAt + cfg.keepAliveSeconds ∧
      (createSession sid tenant user now cfg).lastUsedAt = now) := by
  refine ⟨?_, getActiveSession_eq_find store tenant user now cfg, ?_, ?_, ?_⟩
  · intro s
    rw [sessionEligible_eq cfg s now]
    rfl
  · intro s hs
    simp [getOrCreateSessionId, hs]
  · intro hs
    simp [getOrCreateSessionId, hs]
  · intro sid
    exact ⟨rfl, rfl⟩

/-- C2 counterexample: a statement containing the UNION SELECT pattern whose
leading keyword is forbidden is rejected as ForbiddenStatement, not as
InjectionDetected, because the statement-type check runs first. -/
theorem C2_counterexample :
    unionSelectSearch (normalizeSqlL "DROP TABLE t UNION SELECT 1".data) = true ∧
    validate {} "DROP TABLE t UNION SELECT 1" =
      .error ⟨"FORBIDDEN_STATEMENT", "DROP"⟩ := by
  constructor
  · decide
  · decide

/-- If the injection scan found nothing, the union-based pattern in
particular is absent. -/
theorem checkInjection_none_unionSelect {norm : List Char}
    (h : checkInjectionPatterns norm = none) : unionSelectSearch norm = false := by
  unfold checkInjectionPatterns at h
  rw [Option.map_eq_none'] at h
  rw [List.find?_eq_none] at h
  have hm := h (unionSelectSearch, "UNION SELECT pattern detected") (by simp [injectionPatterns])
  simpa using hm

/-- Reaching the injection scan with a union-based pattern present yields an
injection error. -/
theorem validate_injection (cfg : SQLConfig) (s : String) (d : String)
    (hlen : ¬ (normalizeSqlL s.data).length > cfg.maxQueryLength)
    (htype : detectStatementType (normalizeSqlL s.data) = "SELECT")
    (hinj : checkInjectionPatterns (normalizeSqlL s.data) = some d) :
    validate cfg s = .error ⟨"INJECTION_DETECTED", d⟩ := by
  simp only [validate, if_neg hlen, htype, hinj]
  simp

/-- C2 amended: the union policies hold for statements that reach the
respective checks.  A query that passes the length and statement-type checks
and contains the UNION SELECT pattern is rejected as InjectionDetected no
matter the allow_union flag; and an accepted query containing a bare UNION
with allow_union disabled carries exactly the non-fatal union warning. -/
theorem C2_amended (cfg : SQLConfig) (s : String) :
    ((normalizeSqlL s.data).length ≤ cfg.maxQueryLength →
      detectStatementType (normalizeSqlL s.data) = "SELECT" →
      unionSelectSearch (normalizeSqlL s.data) = true →
      ∃ d, validate cfg s = .error ⟨"INJECTION_DETECTED", d⟩) ∧
    (∀ r, validate cfg s = .ok r → cfg.allowUnion = false →
      searchWordCI "UNION".data (normalizeSqlL s.data) = true →
      r.warnings = [unionWarning]) := by
  constructor
  · intro hlen htype hus
    cases hinj : checkInjectionPatterns (normalizeSqlL s.data) with
    | some d => exact ⟨d, validate_injection cfg s d (by omega) htype hinj⟩
    | none => exact absurd hus (by simp [checkInjection_none_unionSelect hinj])
  · intro r hok hau hu
    simp only [validate] at hok
    iterate 8 (split at hok <;> try simp at hok)
    rename_i hx1 hx2 hx3 hinj hx5 hx6 hx7 hx8 hx9 hx10 hx11
    have hfalse := checkInjection_none_unionSelect hinj
    rw [← hok]
    simp [hau, hu, hfalse]

/-- C2 witness: the amended statement at two concrete queries, one with the
UNION SELECT pattern, one accepted bare-UNION query with its warning. -/
theorem C2_witness :
    (∃ d, validate {} "SELECT a FROM t UNION SELECT b FROM u" =
      .error ⟨"INJECTION_DETECTED", d⟩) ∧
    (⟨true, "SELECT 1 UNION (SELECT 2)", [unionWarning],
      "SELECT 1 UNION (SELECT 2)", "SELECT"⟩ : SQLValidationResult).warnings =
      [unionWarning] :=
  ⟨(C2_amended {} "SELECT a FROM t UNION SELECT b FROM u").1
      (by decide) (by decide) (by decide),
   (C2_amended {} "SELECT 1 UNION (SELECT 2)").2
      ⟨true, "SELECT 1 UNION (SELECT 2)", [unionWarning],
        "SELECT 1 UNION (SELECT 2)", "SELECT"⟩
      (by decide) rfl (by decide)⟩

/-- C9 counterexample: an input ending in two semicolons loses both, not just
the last one. -/
theorem C9_counterexample :
    normalizeSql "SELECT 1;;" = "SELECT 1" ∧ normalizeSql "SELECT 1;;" ≠ "SELECT 1;" := by
  constructor
  · decide
  · decide

/-- Left-stripping ignores an appended run of semicolons. -/
theorem lstrip_append_semis (s : List Char) (k : Nat) :
    lstripWs (s ++ List.replicate (k + 1) ';') = lstripWs s ++ List.replicate (k + 1) ';' := by
  unfold lstripWs
  rw [List.dropWhile_append]
  split
  · rename_i h
    rw [List.isEmpty_iff] at h
    rw [h, List.replicate_succ, List.dropWhile_cons]
    simp [pyIsSpace]
  · rfl

/-- Right-stripping whitespace ignores an appended run of semicolons. -/
theorem rstripWs_append_semis (y : List Char) (k : Nat) :
    rstripWs (y ++ List.replicate (k + 1) ';') = y ++ List.replicate (k + 1) ';' := by
  unfold rstripWs
  rw [List.reverse_append, List.reverse_replicate]
  have h1 : List.dropWhile pyIsSpace (List.replicate (k + 1) ';' ++ y.reverse) =
      List.replicate (k + 1) ';' ++ y.reverse := by
    rw [List.replicate_succ, List.cons_append, List.dropWhile_cons]
    simp [pyIsSpace, List.replicate_succ]
  rw [h1, List.reverse_append, List.reverse_replicate, List.reverse_reverse]

/-- Dropping semicolons consumes a whole leading run of them. -/
theorem dropWhile_semis_replicate (n : Nat) (z : List Char) :
    List.dropWhile (fun c => c == ';') (List.replicate n ';' ++ z) =
      List.dropWhile (fun c => c == ';') z := by
  induction n with
  | zero => rfl
  | succ n ih => rw [List.replicate_succ, List.cons_append, List.dropWhile_cons]; simp [ih]

/-- Stripping trailing semicolons removes an entire appended run of them. -/
theorem rstripSemis_append_semis (y : List Char) (n : Nat) :
    rstripSemis (y ++ List.replicate n ';') = rstripSemis y := by
  unfold rstripSemis
  rw [List.reverse_append, List.reverse_replicate, dropWhile_semis_replicate]

/-- C9 amended: normalization trims whitespace before semicolon stripping and
then removes every trailing semicolon, not just one: any positive number of
trailing semicolons yields the same result as a single one, namely the
whitespace-collapsed, semicolon-stripped, left-trimmed input. -/
theorem C9_amended (s : List Char) (k : Nat) :
    normalizeSqlL (s ++ List.replicate (k + 1) ';') =
      collapseWs (rstripSemis (lstripWs s)) ∧
    normalizeSqlL (s ++ List.replicate (k + 1) ';') = normalizeSqlL (s ++ [';']) := by
  have key : ∀ m : Nat, normalizeSqlL (s ++ List.replicate (m + 1) ';') =
      collapseWs (rstripSemis (lstripWs s)) := by
    intro m
    unfold normalizeSqlL pyStrip
    rw [lstrip_append_semis, rstripWs_append_semis, rstripSemis_append_semis]
  exact ⟨key k, (key k).trans (key 0).symm⟩

/-- C10 counterexample: an input of semicolons separated by a space is
rejected as ForbiddenStatement, but the detected statement type is the
leftover token, not the EMPTY sentinel. -/
theorem C10_counterexample :
    validate {} "; ;" = .error ⟨"FORBIDDEN_STATEMENT", ";"⟩ ∧ (";" : String) ≠ "EMPTY" := by
  constructor
  · decide
  · decide

/-- Characters of a collapsed string are spaces or non-whitespace characters
of the original. -/
theorem mem_collapseWsAux {c : Char} :
    ∀ (b : Bool) (l : List Char), c ∈ collapseWsAux b l →
      c = ' ' ∨ (c ∈ l ∧ pyIsSpace c = false) := by
  intro b l
  induction l generalizing b with
  | nil => intro h; exact absurd h (List.not_mem_nil c)
  | cons d rest ih =>
    intro h
    unfold collapseWsAux at h
    by_cases hd : pyIsSpace d = true
    · rw [if_pos hd] at h
      rcases b with _ | _
      · simp only [Bool.false_eq_true, if_false] at h
        rcases List.mem_cons.mp h with h1 | h2
        · exact Or.inl h1
        · rcases ih true h2 with h3 | ⟨h4, h5⟩
          · exact Or.inl h3
          · exact Or.inr ⟨List.mem_cons_of_mem d h4, h5⟩
      · simp only [if_true] at h
        rcases ih true h with h3 | ⟨h4, h5⟩
        · exact Or.inl h3
        · exact Or.inr ⟨List.mem_cons_of_mem d h4, h5⟩
    · rw [if_neg hd] at h
      rcases List.mem_cons.mp h with h1 | h2
      · exact Or.inr ⟨by rw [h1]; exact List.mem_cons_self d rest,
          by rw [h1]; simpa using hd⟩
      · rcases ih false h2 with h3 | ⟨h4, h5⟩
        · exact Or.inl h3
        · exact Or.inr ⟨List.mem_cons_of_mem d h4, h5⟩

/-- Characters survive right-stripping of semicolons only from the input. -/
theorem mem_rstripSemis {c : Char} {l : List Char} (h : c ∈ rstripSemis l) : c ∈ l := by
  unfold rstripSemis at h
  rw [List.mem_reverse] at h
  exact List.mem_reverse.mp ((List.dropWhile_sublist _).subset h)

/-- Characters survive whitespace stripping only from the input. -/
theorem mem_pyStrip {c : Char} {l : List Char} (h : c ∈ pyStrip l) : c ∈ l := by
  unfold pyStrip rstripWs lstripWs at h
  rw [List.mem_reverse] at h
  have h2 := List.mem_reverse.mp ((List.dropWhile_sublist _).subset h)
  exact (List.dropWhile_sublist _).subset h2

/-- Every character of a normalized semicolon-and-whitespace input is a space
or a semicolon. -/
theorem norm_mem_class {s : List Char}
    (hclass : ∀ c ∈ s, pyIsSpace c = true ∨ c = ';') :
    ∀ c ∈ normalizeSqlL s, c = ' ' ∨ c = ';' := by
  intro c hc
  rcases mem_collapseWsAux false _ hc with h1 | ⟨h2, h3⟩
  · exact Or.inl h1
  · rcases hclass c (mem_pyStrip (mem_rstripSemis h2)) with h4 | h5
    · rw [h4] at h3; exact absurd h3 (by simp)
    · exact Or.inr h5

/-- The head of a dropWhile result fails the predicate. -/
theorem dropWhile_head_false {α : Type} (p : α → Bool) :
    ∀ (l : List α) (c : α) (t : List α), l.dropWhile p = c :: t → p c = false := by
  intro l
  induction l with
  | nil => intro c t h; exact absurd h (by simp)
  | cons a l ih =>
    intro c t h
    rw [List.dropWhile_cons] at h
    by_cases ha : p a = true
    · rw [if_pos ha] at h; exact ih c t h
    · rw [if_neg ha] at h
      injection h with h1 h2
      rw [← h1]
      simpa using ha

/-- Right-stripped whitespace splits off an all-whitespace tail. -/
theorem rstripWs_decomp (l : List Char) : ∃ t, l = rstripWs l ++ t := by
  refine ⟨(l.reverse.takeWhile pyIsSpace).reverse, ?_⟩
  unfold rstripWs
  rw [← List.reverse_append, List.takeWhile_append_dropWhile, List.reverse_reverse]

/-- Right-stripped semicolons split off an all-semicolon tail. -/
theorem rstripSemis_decomp (l : List Char) : ∃ t, l = rstripSemis l ++ t := by
  refine ⟨(l.reverse.takeWhile (fun c => c == ';')).reverse, ?_⟩
  unfold rstripSemis
  rw [← List.reverse_append, List.takeWhile_append_dropWhile, List.reverse_reverse]

/-- Right-stripping whitespace keeps at least every non-whitespace character. -/
theorem rstripWs_ne_nil {l : List Char} {c : Char} (hc : c ∈ l)
    (hw : pyIsSpace c = false) : rstripWs l ≠ [] := by
  intro hnil
  unfold rstripWs at hnil
  rw [List.reverse_eq_nil_iff, List.dropWhile_eq_nil_iff] at hnil
  have := hnil c (List.mem_reverse.mpr hc)
  rw [hw] at this
  exact absurd this (by simp)

/-- A nonempty string stripped on both sides starts with its first
non-whitespace character, which fails the whitespace test. -/
theorem pyStrip_head {l : List Char} {c : Char} {t : List Char}
    (h : pyStrip l = c :: t) : pyIsSpace c = false := by
  unfold pyStrip at h
  obtain ⟨t2, ht2⟩ := rstripWs_decomp (lstripWs l)
  rw [h] at ht2
  unfold lstripWs at ht2
  exact dropWhile_head_false pyIsSpace l c (t ++ t2) ht2

/-- Collapsing whitespace of a nonempty string is nonempty. -/
theorem collapseWs_ne_nil {l : List Char} (h : l ≠ []) : collapseWs l ≠ [] := by
  match l, h with
  | c :: t, _ =>
    unfold collapseWs collapseWsAux
    by_cases hc : pyIsSpace c = true <;> simp [hc]

/-- Collapsing whitespace keeps a leading non-whitespace character. -/
theorem collapseWs_cons_of_neg {c : Char} {t : List Char} (hc : pyIsSpace c = false) :
    collapseWs (c :: t) = c :: collapseWsAux false t := by
  show collapseWsAux false (c :: t) = c :: collapseWsAux false t
  rw [collapseWsAux]
  simp [hc]

/-- A normalized whitespace-and-semicolon input is empty or starts with a
semicolon. -/
theorem norm_shape {s : List Char}
    (hclass : ∀ c ∈ s, pyIsSpace c = true ∨ c = ';') :
    normalizeSqlL s = [] ∨ ∃ t, normalizeSqlL s = ';' :: t := by
  unfold normalizeSqlL
  cases hy : rstripSemis (pyStrip s) with
  | nil => exact Or.inl rfl
  | cons c t =>
    have hps : ∃ t2, pyStrip s = c :: (t ++ t2) := by
      obtain ⟨t2, ht2⟩ := rstripSemis_decomp (pyStrip s)
      rw [hy] at ht2
      exact ⟨t2, by simpa using ht2⟩
    obtain ⟨t2, ht2⟩ := hps
    have hcw : pyIsSpace c = false := pyStrip_head ht2
    have hc_mem : c ∈ s := mem_pyStrip (ht2 ▸ List.mem_cons_self c (t ++ t2))
    have hc_semi : c = ';' := by
      rcases hclass c hc_mem with h1 | h2
      · rw [h1] at hcw; exact absurd hcw (by simp)
      · exact h2
    refine Or.inr ⟨collapseWsAux false t, ?_⟩
    rw [collapseWs_cons_of_neg hcw, hc_semi]

/-- A prefix test fails on differing head characters. -/
theorem startsWithL_cons_ne {a c : Char} {ps s : List Char} (h : (a == c) = false) :
    startsWithL (a :: ps) (c :: s) = false := by
  simp only [startsWithL, h, Bool.false_and]

/-- A pattern whose head is not a semicolon never prefixes a string starting
with a semicolon. -/
theorem startsWithL_semi_false {pat w : List Char}
    (h : (pat.head?.map (fun a => !(a == ';'))).getD false = true) :
    startsWithL pat (';' :: w) = false := by
  match pat, h with
  | a :: ps, h =>
    refine startsWithL_cons_ne ?_
    simp at h
    simpa using h

/-- Detection on a normalized string that starts with a semicolon yields its
first token, which also starts with the semicolon. -/
theorem detect_semi_head {t : List Char}
    (hclass : ∀ c ∈ (';' :: t : List Char), c = ' ' ∨ c = ';') :
    ∃ w, detectStatementType (';' :: t) = ⟨';' :: w⟩ := by
  have hup : upperL (';' :: t) = ';' :: t := by
    unfold upperL
    calc (';' :: t).map Char.toUpper = (';' :: t).map id :=
          List.map_congr_left (fun c hc => by
            rcases hclass c hc with h | h <;> rw [h] <;> decide)
      _ = ';' :: t := List.map_id _
  have hls : lstripWs (';' :: t) = ';' :: t := by
    unfold lstripWs
    rw [List.dropWhile_cons]
    simp [pyIsSpace]
  have hstrip : ∃ w2, pyStrip (';' :: t) = ';' :: w2 := by
    have hne : rstripWs (lstripWs (';' :: t)) ≠ [] := by
      rw [hls]
      exact rstripWs_ne_nil (List.mem_cons_self _ _) (by decide)
    obtain ⟨t2, ht2⟩ := rstripWs_decomp (lstripWs (';' :: t))
    rw [hls] at ht2 hne
    cases h : rstripWs (';' :: t) with
    | nil => exact absurd h hne
    | cons a w2 =>
      rw [h, List.cons_append] at ht2
      injection ht2 with h1 _
      exact ⟨w2, by unfold pyStrip; rw [hls, h, ← h1]⟩
  obtain ⟨w2, hw2⟩ := hstrip
  unfold detectStatementType
  rw [hup, hw2]
  dsimp only
  rw [show startsWithL "WITH".data (';' :: w2) = false from startsWithL_semi_false (by decide)]
  rw [show forbiddenStatements.find?
      (fun st => startsWithL st.data (';' :: w2)) = none from
    List.find?_eq_none.mpr (fun st hst => by
      have h2 : (st.data.head?.map (fun a => !(a == ';'))).getD false = true := by
        fin_cases hst <;> decide
      simp [startsWithL_semi_false h2])]
  rw [show startsWithL "SELECT".data (';' :: w2) = false from startsWithL_semi_false (by decide)]
  simp only [Bool.false_eq_true, if_false, List.isEmpty_cons]
  refine ⟨List.takeWhile (fun c => !pyIsSpace c) w2, ?_⟩
  simp only [firstWordL, List.takeWhile_cons]
  rw [if_pos (show ((fun c => !pyIsSpace c) ';') = true from by decide)]

/-- C10 amended: every input consisting only of whitespace and semicolons is
rejected through the ordinary statement-type check as a ForbiddenStatement
(provided its normalized form passes the length check); the detected type is
the EMPTY sentinel exactly in case the normalized SQL is empty, and otherwise
the leftover semicolon token. -/
theorem C10_amended (cfg : SQLConfig) (s : String)
    (hclass : ∀ c ∈ s.data, pyIsSpace c = true ∨ c = ';')
    (hlen : (normalizeSqlL s.data).length ≤ cfg.maxQueryLength) :
    ∃ d, validate cfg s = .error ⟨"FORBIDDEN_STATEMENT", d⟩ ∧
      (normalizeSqlL s.data = [] → d = "EMPTY") := by
  rcases norm_shape hclass with hnil | ⟨t, ht⟩
  · refine ⟨"EMPTY", ?_, fun _ => rfl⟩
    simp only [validate, hnil]
    rw [if_neg (by simp : ¬ (([] : List Char).length > cfg.maxQueryLength))]
    rw [if_pos (by decide : (detectStatementType [] ≠ "SELECT"))]
    rfl
  · have hcl2 : ∀ c ∈ (';' :: t : List Char), c = ' ' ∨ c = ';' := by
      intro c hc
      exact norm_mem_class hclass c (ht ▸ hc)
    obtain ⟨w, hw⟩ := detect_semi_head hcl2
    have hne : detectStatementType (normalizeSqlL s.data) ≠ "SELECT" := by
      rw [ht, hw]
      intro heq
      have hdata : (';' :: w) = "SELECT".data := congrArg String.data heq
      injection hdata with h1 _
      exact absurd h1 (by decide)
    refine ⟨detectStatementType (normalizeSqlL s.data), ?_, fun h => absurd (ht ▸ h) (by simp)⟩
    simp only [validate]
    rw [if_neg (by omega : ¬ ((normalizeSqlL s.data).length > cfg.maxQueryLength))]
    rw [if_pos hne]

/-- C10 witness: the amended statement at an input of three semicolons with
the default configuration. -/
theorem C10_witness :
    ∃ d, validate {} ";;;" = .error ⟨"FORBIDDEN_STATEMENT", d⟩ ∧
      (normalizeSqlL ";;;".data = [] → d = "EMPTY") :=
  C10_amended {} ";;;" (by decide) (by decide)

/-- Stepping the backoff start advances the backoff sequence by one. -/
theorem backoffSeq_step (ival : ℚ) :
    ∀ i, backoffSeq (min (ival * (3 / 2)) maxPollInterval) i = backoffSeq ival (i + 1) := by
  intro i
  induction i with
  | zero => rfl
  | succ i ih => rw [backoffSeq, ih]; rfl

/-- The waiter raises its timeout exactly when the elapsed time reaches the
deadline at the start of an iteration not later than the first terminal
poll. -/
theorem waitAux_timeout_iff (timeout : ℚ) :
    ∀ (script : List (ℚ × String)) (t ival : ℚ),
      (waitAux timeout script t ival).1 = some .timeoutErr ↔
        ∃ k, k ≤ firstTerminalIdx script ∧ k ≤ script.length ∧
          t + elapsedFrom ival (script.map Prod.fst) k ≥ timeout := by
  intro script
  induction script with
  | nil =>
    intro t ival
    rw [waitAux]
    by_cases ht : t ≥ timeout
    · rw [if_pos ht]
      constructor
      · intro _
        exact ⟨0, Nat.le_refl 0, Nat.le_refl 0, by simpa [elapsedFrom] using ht⟩
      · intro _; rfl
    · rw [if_neg ht]
      constructor
      · intro h; exact absurd h (by simp)
      · rintro ⟨k, hk1, hk2, hk3⟩
        simp only [List.length_nil, Nat.le_zero] at hk2
        subst hk2
        exact absurd (by simpa [elapsedFrom] using hk3) ht
  | cons e rest ih =>
    intro t ival
    obtain ⟨lat, st⟩ := e
    by_cases ht : t ≥ timeout
    · rw [waitAux, if_pos ht]
      constructor
      · intro _
        exact ⟨0, Nat.zero_le _, Nat.zero_le _, by simpa [elapsedFrom] using ht⟩
      · intro _; rfl
    · rw [waitAux, if_neg ht]
      dsimp only
      by_cases hfin : st = "FINISHED"
      · have hF : firstTerminalIdx ((lat, st) :: rest) = 0 := by
          simp [firstTerminalIdx, List.findIdx_cons, isTerminalStatus, hfin]
        rw [if_pos hfin, hF]
        constructor
        · intro h; exact absurd h (by simp)
        · rintro ⟨k, hk1, hk2, hk3⟩
          interval_cases k
          exact absurd (by simpa [elapsedFrom] using hk3) ht
      · rw [if_neg hfin]
        by_cases hfail : st = "FAILED"
        · have hF : firstTerminalIdx ((lat, st) :: rest) = 0 := by
            simp [firstTerminalIdx, List.findIdx_cons, isTerminalStatus, hfail]
          rw [if_pos hfail, hF]
          constructor
          · intro h; exact absurd h (by simp)
          · rintro ⟨k, hk1, hk2, hk3⟩
            interval_cases k
            exact absurd (by simpa [elapsedFrom] using hk3) ht
        · rw [if_neg hfail]
          by_cases habort : st = "ABORTED"
          · have hF : firstTerminalIdx ((lat, st) :: rest) = 0 := by
              simp [firstTerminalIdx, List.findIdx_cons, isTerminalStatus, habort]
            rw [if_pos habort, hF]
            constructor
            · intro h; exact absurd h (by simp)
            · rintro ⟨k, hk1, hk2, hk3⟩
              interval_cases k
              exact absurd (by simpa [elapsedFrom] using hk3) ht
          · rw [if_neg habort]
            have hterm : isTerminalStatus st = false := by
              simp [isTerminalStatus, hfin, hfail, habort]
            have hF : firstTerminalIdx ((lat, st) :: rest) = firstTerminalIdx rest + 1 := by
              simp [firstTerminalIdx, List.findIdx_cons, hterm]
            dsimp only
            rw [hF, ih (t + lat + ival) (min (ival * (3 / 2)) maxPollInterval)]
            constructor
            · rintro ⟨k, hk1, hk2, hk3⟩
              refine ⟨k + 1, by omega, by simp only [List.length_cons]; omega, ?_⟩
              simp only [List.map_cons, elapsedFrom]
              linarith [hk3]
            · rintro ⟨k, hk1, hk2, hk3⟩
              cases k with
              | zero => exact absurd (by simpa [elapsedFrom] using hk3) ht
              | succ k =>
                refine ⟨k, by omega, by simp only [List.length_cons] at hk2; omega, ?_⟩
                simp only [List.map_cons, elapsedFrom] at hk3
                linarith [hk3]

/-- The waiter never cancels the remote statement. -/
theorem waitAux_no_cancel (timeout : ℚ) :
    ∀ (script : List (ℚ × String)) (t ival : ℚ),
      WaitAction.cancelCall ∉ (waitAux timeout script t ival).2 := by
  intro script
  induction script with
  | nil =>
    intro t ival
    rw [waitAux]
    split
    · simp
    · simp
  | cons e rest ih =>
    intro t ival
    obtain ⟨lat, st⟩ := e
    rw [waitAux]
    dsimp only
    split
    · simp
    · split
      · simp
      · split
        · simp
        · split
          · simp
          · dsimp only
            simp only [List.mem_cons]
            rintro (h | h | h)
            · exact absurd h (by simp)
            · exact absurd h (by simp)
            · exact ih (t + lat + ival) (min (ival * (3 / 2)) maxPollInterval) h

/-- The sleeps of the waiter follow the backoff sequence from the initial
interval. -/
theorem waitAux_sleeps (timeout : ℚ) :
    ∀ (script : List (ℚ × String)) (t ival : ℚ),
      ∃ m, sleepsOf (waitAux timeout script t ival).2 =
        (List.range m).map (backoffSeq ival) := by
  intro script
  induction script with
  | nil =>
    intro t ival
    rw [waitAux]
    split
    · exact ⟨0, rfl⟩
    · exact ⟨0, rfl⟩
  | cons e rest ih =>
    intro t ival
    obtain ⟨lat, st⟩ := e
    rw [waitAux]
    dsimp only
    split
    · exact ⟨0, rfl⟩
    · split
      · exact ⟨0, rfl⟩
      · split
        · exact ⟨0, rfl⟩
        · split
          · exact ⟨0, rfl⟩
          · obtain ⟨m, hm⟩ := ih (t + lat + ival) (min (ival * (3 / 2)) maxPollInterval)
            refine ⟨m + 1, ?_⟩
            dsimp only
            have hcons : sleepsOf (WaitAction.describeCall :: WaitAction.sleepFor ival ::
                (waitAux timeout rest (t + lat + ival)
                  (min (ival * (3 / 2)) maxPollInterval)).2) =
                ival :: sleepsOf ((waitAux timeout rest (t + lat + ival)
                  (min (ival * (3 / 2)) maxPollInterval)).2) := rfl
            rw [hcons, hm, List.range_succ_eq_map, List.map_cons, List.map_map]
            refine congrArg₂ _ rfl ?_
            refine List.map_congr_left ?_
            intro i _
            simp only [Function.comp_apply, Nat.succ_eq_add_one]
            exact backoffSeq_step ival i

/-- C8: wait_for_statement raises its timeout exactly when the elapsed time
since the start of the call reaches the deadline before the first terminal
poll; it never cancels the remote statement; and its sleep intervals follow
the backoff sequence, which starts at the base interval, multiplies by one
and a half after every poll, and never exceeds the fixed ceiling. -/
theorem C8_confirmed (script : List (ℚ × String)) (timeoutSeconds pollIntervalSeconds : ℚ) :
    ((waitForStatement script timeoutSeconds pollIntervalSeconds).1 =
        some WaitOutcome.timeoutErr ↔
      ∃ k, k ≤ firstTerminalIdx script ∧ k ≤ script.length ∧
        elapsedFrom pollIntervalSeconds (script.map Prod.fst) k ≥ timeoutSeconds) ∧
    WaitAction.cancelCall ∉ (waitForStatement script timeoutSeconds pollIntervalSeconds).2 ∧
    (∃ m, sleepsOf (waitForStatement script timeoutSeconds pollIntervalSeconds).2 =
      (List.range m).map (backoffSeq pollIntervalSeconds)) ∧
    backoffSeq pollIntervalSeconds 0 = pollIntervalSeconds ∧
    (∀ n, backoffSeq pollIntervalSeconds (n + 1) =
      min (backoffSeq pollIntervalSeconds n * (3 / 2)) maxPollInterval) ∧
    (∀ n, backoffSeq pollIntervalSeconds (n + 1) ≤ maxPollInterval) := by
  refine ⟨?_, waitAux_no_cancel _ _ _ _, waitAux_sleeps _ _ _ _, rfl, fun n => rfl,
    fun n => min_le_right _ _⟩
  have h := waitAux_timeout_iff timeoutSeconds script 0 pollIntervalSeconds
  simpa [waitForStatement] using h

/-- C8 witness: on a concrete two-poll script with base interval one half and
timeout one second, the waiter times out (via the iff at k = 2) and never
cancels. -/
theorem C8_witness :
    (waitForStatement [((0 : ℚ), "SUBMITTED"), (0, "STARTED")] 1 (1 / 2)).1 =
      some WaitOutcome.timeoutErr ∧
    WaitAction.cancelCall ∉
      (waitForStatement [((0 : ℚ), "SUBMITTED"), (0, "STARTED")] 1 (1 / 2)).2 := by
  refine ⟨(C8_confirmed [((0 : ℚ), "SUBMITTED"), (0, "STARTED")] 1 (1 / 2)).1.mpr
      ⟨2, ?_, ?_, ?_⟩,
    (C8_confirmed [((0 : ℚ), "SUBMITTED"), (0, "STARTED")] 1 (1 / 2)).2.1⟩
  · show 2 ≤ firstTerminalIdx [((0 : ℚ), "SUBMITTED"), (0, "STARTED")]
    simp [firstTerminalIdx, List.findIdx, List.findIdx.go, isTerminalStatus]
  · show 2 ≤ 2
    exact Nat.le_refl 2
  · show elapsedFrom (1 / 2) (List.map Prod.fst [((0 : ℚ), "SUBMITTED"), (0, "STARTED")]) 2 ≥ 1
    simp only [List.map_cons, List.map_nil, elapsedFrom, maxPollInterval]
    norm_num [min_def]

/-- C7 witness: the amended statement applied to a one-session store in which
that session is eligible. -/
theorem C7_witness :
    getOrCreateSessionId [⟨"sid", "t", "u", 0, 1000, 90, true⟩] "t" "u" 100 ⟨1000, 10⟩ =
      (some "sid", false,
       updateLastUsed [⟨"sid", "t", "u", 0, 1000, 90, true⟩] "sid" 100) ∧
    getOrCreateSessionId [⟨"sid", "t", "u", 0, 1000, 90, false⟩] "t" "u" 100 ⟨1000, 10⟩ =
      (none, true, [⟨"sid", "t", "u", 0, 1000, 90, false⟩]) :=
  ⟨(C7_amended [⟨"sid", "t", "u", 0, 1000, 90, true⟩] "t" "u" 100 ⟨1000, 10⟩).2.2.1
      ⟨"sid", "t", "u", 0, 1000, 90, true⟩
      (by simp [getActiveSession, List.filter, List.find?, isExpired, isIdleExpired]; norm_num),
   (C7_amended [⟨"sid", "t", "u", 0, 1000, 90, false⟩] "t" "u" 100 ⟨1000, 10⟩).2.2.2.1
      (by simp [getActiveSession, List.filter, List.find?, isExpired, isIdleExpired])⟩

theorem digitChar_isDigit (d : Nat) : (digitChar d).isDigit = true := by
  unfold digitChar
  split <;> decide

theorem digitChar_val (d : Nat) (h : d < 10) : (digitChar d).toNat - '0'.toNat = d := by
  interval_cases d <;> decide

theorem digitsToNat_append_singleton (a : List Char) (c : Char) :
    digitsToNat (a ++ [c]) = digitsToNat a * 10 + (c.toNat - '0'.toNat) := by
  simp [digitsToNat, List.foldl_append]

theorem natDecimalAux_spec :
    ∀ fuel n, n < fuel →
      digitsToNat (natDecimalAux fuel n) = n ∧ natDecimalAux fuel n ≠ [] ∧
      ∀ c ∈ natDecimalAux fuel n, c.isDigit = true := by
  intro fuel
  induction fuel with
  | zero => intro n h; omega
  | succ fuel ih =>
    intro n h
    rw [natDecimalAux]
    by_cases h10 : n < 10
    · rw [if_pos h10]
      refine ⟨?_, by simp, ?_⟩
      · have : digitsToNat [digitChar n] = (digitChar n).toNat - '0'.toNat := by
          simp [digitsToNat]
        rw [this]
        exact digitChar_val n h10
      · intro c hc
        simp only [List.mem_singleton] at hc
        subst hc
        exact digitChar_isDigit n
    · rw [if_neg h10]
      have hpos : 0 < n := by omega
      have hlt : n / 10 < n := Nat.div_lt_self hpos (by norm_num)
      have hdiv : n / 10 < fuel := by omega
      obtain ⟨ih1, ih2, ih3⟩ := ih (n / 10) hdiv
      refine ⟨?_, by simp, ?_⟩
      · rw [digitsToNat_append_singleton, ih1,
          digitChar_val (n % 10) (Nat.mod_lt _ (by norm_num))]
        omega
      · intro c hc
        rcases List.mem_append.mp hc with hc | hc
        · exact ih3 c hc
        · simp only [List.mem_singleton] at hc
          subst hc
          exact digitChar_isDigit _

theorem digitsToNat_natDecimal (n : Nat) : digitsToNat (natDecimal n) = n :=
  (natDecimalAux_spec (n + 1) n (Nat.lt_succ_self n)).1

theorem natDecimal_ne_nil (n : Nat) : natDecimal n ≠ [] :=
  (natDecimalAux_spec (n + 1) n (Nat.lt_succ_self n)).2.1

theorem natDecimal_digits (n : Nat) : ∀ c ∈ natDecimal n, c.isDigit = true :=
  (natDecimalAux_spec (n + 1) n (Nat.lt_succ_self n)).2.2

theorem digit_not_space {c : Char} (h : c.isDigit = true) : pyIsSpace c = false := by
  unfold pyIsSpace
  simp only [Bool.or_eq_false_iff, beq_eq_false_iff_ne]
  refine ⟨⟨⟨⟨⟨?_, ?_⟩, ?_⟩, ?_⟩, ?_⟩, ?_⟩ <;>
    · intro hc
      subst hc
      exact absurd h (by decide)

theorem takeWhile_all_append {α : Type} (p : α → Bool) (l1 l2 : List α)
    (h : ∀ c ∈ l1, p c = true) :
    (l1 ++ l2).takeWhile p = l1 ++ l2.takeWhile p := by
  induction l1 with
  | nil => simp
  | cons a t ih =>
    have ha := h a (by simp)
    simp [List.takeWhile_cons, ha, ih (fun c hc => h c (List.mem_cons_of_mem a hc))]

theorem dropWhile_all_append {α : Type} (p : α → Bool) (l1 l2 : List α)
    (h : ∀ c ∈ l1, p c = true) :
    (l1 ++ l2).dropWhile p = l2.dropWhile p := by
  induction l1 with
  | nil => simp
  | cons a t ih =>
    have ha := h a (by simp)
    simp [List.dropWhile_cons, ha, ih (fun c hc => h c (List.mem_cons_of_mem a hc))]

theorem drop_takeWhile_length {α : Type} (p : α → Bool) :
    ∀ l : List α, l.drop (l.takeWhile p).length = l.dropWhile p := by
  intro l
  induction l with
  | nil => rfl
  | cons a t ih =>
    by_cases ha : p a = true
    · simp [List.takeWhile_cons, List.dropWhile_cons, ha, ih]
    · simp [List.takeWhile_cons, List.dropWhile_cons, ha]

theorem mem_takeWhile_true {α : Type} (p : α → Bool) :
    ∀ (l : List α) (c : α), c ∈ l.takeWhile p → p c = true := by
  intro l
  induction l with
  | nil => intro c hc; simp [List.takeWhile] at hc
  | cons a t ih =>
    intro c hc
    rw [List.takeWhile_cons] at hc
    by_cases ha : p a = true
    · rw [if_pos ha] at hc
      rcases List.mem_cons.mp hc with hc | hc
      · subst hc; exact ha
      · exact ih c hc
    · rw [if_neg ha] at hc
      exact absurd hc (by simp)

theorem startsWithCI_upperL :
    ∀ (pat s : List Char), startsWithCI pat s = true →
      upperL (s.take pat.length) = upperL pat := by
  intro pat
  induction pat with
  | nil => intro s _; simp [upperL]
  | cons p ps ih =>
    intro s h
    cases s with
    | nil => exact absurd h (by simp [startsWithCI])
    | cons c cs =>
      simp only [startsWithCI, Bool.and_eq_true, beq_iff_eq] at h
      have := ih cs h.2
      simp only [upperL, List.length_cons, List.take_succ_cons, List.map_cons] at this ⊢
      rw [← h.1, this]

theorem isEmpty_false_ne_nil {α : Type} {l : List α} (h : l.isEmpty = false) : l ≠ [] := by
  cases l with
  | nil => simp at h
  | cons a t => simp

/-- Soundness of the backward trailing-LIMIT parse: a successful match
decomposes the original string into the reported prefix, a LIMIT keyword
(matched case-insensitively) preceded by a word boundary, whitespace, the
digit text of the limit, the verbatim OFFSET text, and trailing whitespace. -/
theorem parseRev_sound (r : List Char) (m : LimitMatch)
    (hp : parseTrailingLimitRev r = some m) :
    ∃ kw w trail,
      r.reverse = m.pre ++ kw ++ w ++ m.numText ++ m.offText ++ trail ∧
      upperL kw = "LIMIT".data ∧
      w ≠ [] ∧ (∀ c ∈ w, pyIsSpace c = true) ∧
      (∀ c ∈ trail, pyIsSpace c = true) ∧
      m.numText ≠ [] ∧ (∀ c ∈ m.numText, c.isDigit = true) ∧
      digitsToNat m.numText = m.n ∧
      (∀ c, m.pre.getLast? = some c → isWordChar c = false) ∧
      (m.offText = [] ∨ ∃ w2 kw2 w3 ds2,
        m.offText = w2 ++ kw2 ++ w3 ++ ds2 ∧
        upperL kw2 = "OFFSET".data ∧
        w2 ≠ [] ∧ (∀ c ∈ w2, pyIsSpace c = true) ∧
        w3 ≠ [] ∧ (∀ c ∈ w3, pyIsSpace c = true) ∧
        ds2 ≠ [] ∧ (∀ c ∈ ds2, c.isDigit = true)) := by
  unfold parseTrailingLimitRev at hp
  dsimp only at hp
  set r1 := r.dropWhile pyIsSpace with hr1
  set ds := r1.takeWhile Char.isDigit with hds
  set r2 := r1.drop ds.length with hr2
  set w1 := r2.takeWhile pyIsSpace with hw1
  set r3 := r2.drop w1.length with hr3
  have hr2' : r2 = r1.dropWhile Char.isDigit := by
    rw [hr2, hds]; exact drop_takeWhile_length _ _
  have hr3' : r3 = r2.dropWhile pyIsSpace := by
    rw [hr3, hw1]; exact drop_takeWhile_length _ _
  have hdecr : r = r.takeWhile pyIsSpace ++ r1 := by
    rw [hr1]; exact (List.takeWhile_append_dropWhile _ _).symm
  have hdec1 : r1 = ds ++ r2 := by
    rw [hr2', hds]; exact (List.takeWhile_append_dropWhile _ _).symm
  have hdec2 : r2 = w1 ++ r3 := by
    rw [hr3', hw1]; exact (List.takeWhile_append_dropWhile _ _).symm
  clear_value r3 w1 r2 ds r1
  split at hp
  · exact absurd hp (by simp)
  · rename_i hdsne
    split at hp
    · exact absurd hp (by simp)
    · rename_i hw1ne
      split at hp
      · rename_i hswL
        split at hp
        · rename_i hbd
          injection hp with hp
          subst hp
          refine ⟨(r3.take 5).reverse, w1.reverse, (r.takeWhile pyIsSpace).reverse,
            ?_, ?_, ?_, ?_, ?_, ?_, ?_, rfl, ?_, Or.inl rfl⟩
          · have hdec3 : r3 = r3.take 5 ++ r3.drop 5 := (List.take_append_drop _ _).symm
            conv_lhs => rw [hdecr, hdec1, hdec2, hdec3]
            simp only [List.reverse_append, List.append_assoc, List.nil_append,
              List.append_nil]
          · have h5 := startsWithCI_upperL _ _ hswL
            rw [show ("LIMIT".data.reverse).length = 5 from by decide] at h5
            simp only [upperL, List.map_reverse] at h5 ⊢
            rw [h5]
            decide
          · intro hcon
            exact absurd (List.reverse_eq_nil_iff.mp hcon)
              (isEmpty_false_ne_nil (by simpa using hw1ne))
          · intro c hc
            rw [List.mem_reverse] at hc
            exact mem_takeWhile_true _ _ _ (hw1 ▸ hc)
          · intro c hc
            rw [List.mem_reverse] at hc
            exact mem_takeWhile_true _ _ _ hc
          · intro hcon
            exact absurd (List.reverse_eq_nil_iff.mp hcon)
              (isEmpty_false_ne_nil (by simpa using hdsne))
          · intro c hc
            rw [List.mem_reverse] at hc
            exact mem_takeWhile_true _ _ _ (hds ▸ hc)
          · intro c hc
            rw [List.getLast?_reverse] at hc
            cases hd5 : r3.drop 5 with
            | nil => rw [hd5] at hc; simp at hc
            | cons a t =>
              rw [hd5] at hc
              simp only [List.head?_cons, Option.some.injEq] at hc
              subst hc
              rw [hd5] at hbd
              unfold boundaryRev at hbd
              simpa using hbd
        · exact absurd hp (by simp)
      · rename_i hswLn
        split at hp
        · rename_i hswO
          set r4 := r3.drop 6 with hr4
          set w2 := r4.takeWhile pyIsSpace with hw2
          set r5 := r4.drop w2.length with hr5
          set ds2 := r5.takeWhile Char.isDigit with hds2
          set r6 := r5.drop ds2.length with hr6
          set w3 := r6.takeWhile pyIsSpace with hw3
          set r7 := r6.drop w3.length with hr7
          have hr5' : r5 = r4.dropWhile pyIsSpace := by
            rw [hr5, hw2]; exact drop_takeWhile_length _ _
          have hr6' : r6 = r5.dropWhile Char.isDigit := by
            rw [hr6, hds2]; exact drop_takeWhile_length _ _
          have hr7' : r7 = r6.dropWhile pyIsSpace := by
            rw [hr7, hw3]; exact drop_takeWhile_length _ _
          have hdec3 : r3 = r3.take 6 ++ r4 := by
            rw [hr4]; exact (List.take_append_drop _ _).symm
          have hdec4 : r4 = w2 ++ r5 := by
            rw [hr5', hw2]; exact (List.takeWhile_append_dropWhile _ _).symm
          have hdec5 : r5 = ds2 ++ r6 := by
            rw [hr6', hds2]; exact (List.takeWhile_append_dropWhile _ _).symm
          have hdec6 : r6 = w3 ++ r7 := by
            rw [hr7', hw3]; exact (List.takeWhile_append_dropWhile _ _).symm
          clear_value r7 w3 r6 ds2 r5 w2 r4
          split at hp
          · exact absurd hp (by simp)
          · rename_i hw2ne
            split at hp
            · exact absurd hp (by simp)
            · rename_i hds2ne
              split at hp
              · exact absurd hp (by simp)
              · rename_i hw3ne
                split at hp
                · rename_i hswL2
                  split at hp
                  · rename_i hbd
                    injection hp with hp
                    subst hp
                    refine ⟨(r7.take 5).reverse, w3.reverse,
                      (r.takeWhile pyIsSpace).reverse, ?_, ?_, ?_, ?_, ?_, ?_, ?_, rfl,
                      ?_, Or.inr ⟨w2.reverse, (r3.take 6).reverse, w1.reverse, ds.reverse,
                        ?_, ?_, ?_, ?_, ?_, ?_, ?_, ?_⟩⟩
                    · have hdec7 : r7 = r7.take 5 ++ r7.drop 5 :=
                        (List.take_append_drop _ _).symm
                      conv_lhs => rw [hdecr, hdec1, hdec2, hdec3, hdec4, hdec5, hdec6, hdec7]
                      simp only [List.reverse_append, List.append_assoc, List.nil_append,
                        List.append_nil]
                    · have h5 := startsWithCI_upperL _ _ hswL2
                      rw [show ("LIMIT".data.reverse).length = 5 from by decide] at h5
                      simp only [upperL, List.map_reverse] at h5 ⊢
                      rw [h5]
                      decide
                    · intro hcon
                      exact absurd (List.reverse_eq_nil_iff.mp hcon)
                        (isEmpty_false_ne_nil (by simpa using hw3ne))
                    · intro c hc
                      rw [List.mem_reverse] at hc
                      exact mem_takeWhile_true _ _ _ (hw3 ▸ hc)
                    · intro c hc
                      rw [List.mem_reverse] at hc
                      exact mem_takeWhile_true _ _ _ hc
                    · intro hcon
                      exact absurd (List.reverse_eq_nil_iff.mp hcon)
                        (isEmpty_false_ne_nil (by simpa using hds2ne))
                    · intro c hc
                      rw [List.mem_reverse] at hc
                      exact mem_takeWhile_true _ _ _ (hds2 ▸ hc)
                    · intro c hc
                      rw [List.getLast?_reverse] at hc
                      cases hd5 : r7.drop 5 with
                      | nil => rw [hd5] at hc; simp at hc
                      | cons a t =>
                        rw [hd5] at hc
                        simp only [List.head?_cons, Option.some.injEq] at hc
                        subst hc
                        rw [hd5] at hbd
                        unfold boundaryRev at hbd
                        simpa using hbd
                    · simp only [List.reverse_append, List.append_assoc, List.nil_append,
                        List.append_nil]
                    · have h6 := startsWithCI_upperL _ _ hswO
                      rw [show ("OFFSET".data.reverse).length = 6 from by decide] at h6
                      simp only [upperL, List.map_reverse] at h6 ⊢
                      rw [h6]
                      decide
                    · intro hcon
                      exact absurd (List.reverse_eq_nil_iff.mp hcon)
                        (isEmpty_false_ne_nil (by simpa using hw2ne))
                    · intro c hc
                      rw [List.mem_reverse] at hc
                      exact mem_takeWhile_true _ _ _ (hw2 ▸ hc)
                    · intro hcon
                      exact absurd (List.reverse_eq_nil_iff.mp hcon)
                        (isEmpty_false_ne_nil (by simpa using hw1ne))
                    · intro c hc
                      rw [List.mem_reverse] at hc
                      exact mem_takeWhile_true _ _ _ (hw1 ▸ hc)
                    · intro hcon
                      exact absurd (List.reverse_eq_nil_iff.mp hcon)
                        (isEmpty_false_ne_nil (by simpa using hdsne))
                    · intro c hc
                      rw [List.mem_reverse] at hc
                      exact mem_takeWhile_true _ _ _ (hds ▸ hc)
                  · exact absurd hp (by simp)
                · exact absurd hp (by simp)
        · exact absurd hp (by simp)

/-- A freshly appended " LIMIT k" clause is itself parsed back as the trailing
limit of the extended string. -/
theorem parse_append_limit (s : List Char) (n : Nat) :
    parseTrailingLimit (s ++ " LIMIT ".data ++ natDecimal n) =
      some ⟨s ++ [' '], n, natDecimal n, []⟩ := by
  obtain ⟨c, cs, hnat⟩ : ∃ c cs, (natDecimal n).reverse = c :: cs := by
    cases h : (natDecimal n).reverse with
    | nil => exact absurd (List.reverse_eq_nil_iff.mp h) (natDecimal_ne_nil n)
    | cons c cs => exact ⟨c, cs, rfl⟩
  have hdig : ∀ d ∈ (natDecimal n).reverse, d.isDigit = true := by
    intro d hd
    exact natDecimal_digits n d (List.mem_reverse.mp hd)
  have hrev : (s ++ " LIMIT ".data ++ natDecimal n).reverse =
      (natDecimal n).reverse ++ ([' '] ++ (['T', 'I', 'M', 'I', 'L'] ++ ([' '] ++ s.reverse))) := by
    rw [show " LIMIT ".data = [' ', 'L', 'I', 'M', 'I', 'T', ' '] from rfl]
    simp [List.reverse_append]
  rw [parseTrailingLimit, hrev]
  unfold parseTrailingLimitRev
  dsimp only
  have h1 : ((natDecimal n).reverse ++
      ([' '] ++ (['T', 'I', 'M', 'I', 'L'] ++ ([' '] ++ s.reverse)))).dropWhile pyIsSpace =
      (natDecimal n).reverse ++ ([' '] ++ (['T', 'I', 'M', 'I', 'L'] ++ ([' '] ++ s.reverse))) := by
    rw [hnat]
    rw [List.cons_append, List.dropWhile_cons]
    rw [digit_not_space (hdig c (by rw [hnat]; simp))]
    simp
  have h2 : ((natDecimal n).reverse ++
      ([' '] ++ (['T', 'I', 'M', 'I', 'L'] ++ ([' '] ++ s.reverse)))).takeWhile Char.isDigit =
      (natDecimal n).reverse := by
    rw [takeWhile_all_append _ _ _ hdig]
    rw [show List.takeWhile Char.isDigit
      ([' '] ++ (['T', 'I', 'M', 'I', 'L'] ++ ([' '] ++ s.reverse))) = [] from rfl]
    exact List.append_nil _
  rw [h1, h2]
  have hne : ¬((natDecimal n).reverse.isEmpty = true) := by
    rw [hnat]; simp
  rw [if_neg hne]
  rw [show ((natDecimal n).reverse ++
      ([' '] ++ (['T', 'I', 'M', 'I', 'L'] ++ ([' '] ++ s.reverse)))).drop
        (natDecimal n).reverse.length =
      [' '] ++ (['T', 'I', 'M', 'I', 'L'] ++ ([' '] ++ s.reverse)) from List.drop_left _ _]
  rw [show List.takeWhile pyIsSpace
      ([' '] ++ (['T', 'I', 'M', 'I', 'L'] ++ ([' '] ++ s.reverse))) = [' '] from rfl]
  rw [if_neg (show ¬((List.isEmpty [' ']) = true) from by simp)]
  rw [show List.drop (List.length [' '])
      ([' '] ++ (['T', 'I', 'M', 'I', 'L'] ++ ([' '] ++ s.reverse))) =
      ['T', 'I', 'M', 'I', 'L'] ++ ([' '] ++ s.reverse) from rfl]
  rw [if_pos (show startsWithCI (['L', 'I', 'M', 'I', 'T'].reverse)
      (['T', 'I', 'M', 'I', 'L'] ++ ([' '] ++ s.reverse)) = true from rfl)]
  rw [show List.drop 5 (['T', 'I', 'M', 'I', 'L'] ++ ([' '] ++ s.reverse)) =
      [' '] ++ s.reverse from rfl]
  rw [if_pos (show boundaryRev ([' '] ++ s.reverse) = true from rfl)]
  simp [List.reverse_append, digitsToNat_natDecimal]

/-- A whitespace character is not a digit. -/
theorem space_not_digit {c : Char} (h : pyIsSpace c = true) : c.isDigit = false := by
  by_contra hcon
  rw [Bool.not_eq_false] at hcon
  rw [digit_not_space hcon] at h
  simp at h

/-- Uppercasing fixes every whitespace character. -/
theorem space_toUpper {c : Char} (h : pyIsSpace c = true) : c.toUpper = c := by
  unfold pyIsSpace at h
  simp only [Bool.or_eq_true, beq_iff_eq] at h
  rcases h with ((((rfl | rfl) | rfl) | rfl) | rfl) | rfl <;> decide

/-- A string whose uppercasing matches the pattern's uppercasing is a
case-insensitive prefix of any of its extensions. -/
theorem startsWithCI_of_upperL :
    ∀ (pat x rest : List Char), upperL x = upperL pat →
      startsWithCI pat (x ++ rest) = true := by
  intro pat
  induction pat with
  | nil => intro x rest _; rfl
  | cons p ps ih =>
    intro x rest h
    cases x with
    | nil => simp [upperL] at h
    | cons a t =>
      simp only [upperL, List.map_cons, List.cons.injEq] at h
      rw [List.cons_append]
      simp only [startsWithCI, Bool.and_eq_true]
      constructor
      · rw [h.1]
        exact beq_self_eq_true _
      · exact ih t rest h.2

/-- Taking inside the left part of an append. -/
theorem take_append_le {α : Type} :
    ∀ (n : Nat) (l1 l2 : List α), n ≤ l1.length → (l1 ++ l2).take n = l1.take n := by
  intro n
  induction n with
  | zero => intro l1 l2 _; simp
  | succ n ih =>
    intro l1 l2 h
    cases l1 with
    | nil => simp at h
    | cons a t =>
      simp only [List.cons_append, List.take_succ_cons]
      rw [ih t l2 (by simpa using h)]

/-- The word boundary before a replaced LIMIT keyword, from the last
character of the prefix. -/
theorem boundary_of_getLast {pre : List Char}
    (hpre : ∀ c, pre.getLast? = some c → isWordChar c = false) :
    boundaryRev pre.reverse = true := by
  cases hpr : pre.reverse with
  | nil => rfl
  | cons a t =>
    have h1 : pre.reverse.head? = some a := by rw [hpr]; rfl
    rw [List.head?_reverse] at h1
    show (!isWordChar a) = true
    rw [hpre a h1]
    rfl

/-- A clause "LIMIT k" written directly after a boundary-respecting prefix is
parsed back as the trailing limit. -/
theorem parse_replace_noOff (pre : List Char) (n : Nat)
    (hpre : ∀ c, pre.getLast? = some c → isWordChar c = false) :
    parseTrailingLimit (pre ++ "LIMIT ".data ++ natDecimal n) =
      some ⟨pre, n, natDecimal n, []⟩ := by
  obtain ⟨c, cs, hnat⟩ : ∃ c cs, (natDecimal n).reverse = c :: cs := by
    cases h : (natDecimal n).reverse with
    | nil => exact absurd (List.reverse_eq_nil_iff.mp h) (natDecimal_ne_nil n)
    | cons c cs => exact ⟨c, cs, rfl⟩
  have hdig : ∀ d ∈ (natDecimal n).reverse, d.isDigit = true := by
    intro d hd
    exact natDecimal_digits n d (List.mem_reverse.mp hd)
  have hrev : (pre ++ "LIMIT ".data ++ natDecimal n).reverse =
      (natDecimal n).reverse ++ ([' '] ++ (['T', 'I', 'M', 'I', 'L'] ++ pre.reverse)) := by
    rw [show "LIMIT ".data = ['L', 'I', 'M', 'I', 'T', ' '] from rfl]
    simp [List.reverse_append]
  rw [parseTrailingLimit, hrev]
  unfold parseTrailingLimitRev
  dsimp only
  have h1 : ((natDecimal n).reverse ++
      ([' '] ++ (['T', 'I', 'M', 'I', 'L'] ++ pre.reverse))).dropWhile pyIsSpace =
      (natDecimal n).reverse ++ ([' '] ++ (['T', 'I', 'M', 'I', 'L'] ++ pre.reverse)) := by
    rw [hnat]
    rw [List.cons_append, List.dropWhile_cons]
    rw [digit_not_space (hdig c (by rw [hnat]; simp))]
    simp
  have h2 : ((natDecimal n).reverse ++
      ([' '] ++ (['T', 'I', 'M', 'I', 'L'] ++ pre.reverse))).takeWhile Char.isDigit =
      (natDecimal n).reverse := by
    rw [takeWhile_all_append _ _ _ hdig]
    rw [show List.takeWhile Char.isDigit
      ([' '] ++ (['T', 'I', 'M', 'I', 'L'] ++ pre.reverse)) = [] from rfl]
    exact List.append_nil _
  rw [h1, h2]
  have hne : ¬((natDecimal n).reverse.isEmpty = true) := by
    rw [hnat]; simp
  rw [if_neg hne]
  rw [show ((natDecimal n).reverse ++
      ([' '] ++ (['T', 'I', 'M', 'I', 'L'] ++ pre.reverse))).drop
        (natDecimal n).reverse.length =
      [' '] ++ (['T', 'I', 'M', 'I', 'L'] ++ pre.reverse) from List.drop_left _ _]
  rw [show List.takeWhile pyIsSpace
      ([' '] ++ (['T', 'I', 'M', 'I', 'L'] ++ pre.reverse)) = [' '] from rfl]
  rw [if_neg (show ¬((List.isEmpty [' ']) = true) from by simp)]
  rw [show List.drop (List.length [' '])
      ([' '] ++ (['T', 'I', 'M', 'I', 'L'] ++ pre.reverse)) =
      ['T', 'I', 'M', 'I', 'L'] ++ pre.reverse from rfl]
  rw [if_pos (show startsWithCI (['L', 'I', 'M', 'I', 'T'].reverse)
      (['T', 'I', 'M', 'I', 'L'] ++ pre.reverse) = true from rfl)]
  rw [show List.drop 5 (['T', 'I', 'M', 'I', 'L'] ++ pre.reverse) =
      pre.reverse from rfl]
  rw [if_pos (boundary_of_getLast hpre)]
  simp [digitsToNat_natDecimal]

/-- A clause "LIMIT k" written after a boundary-respecting prefix and
followed by a well-shaped OFFSET text is parsed back as the trailing limit
with the OFFSET text as the match's verbatim OFFSET group. -/
theorem parse_replace_off (pre w2 kw2 w3 ds2 : List Char) (n : Nat)
    (hpre : ∀ c, pre.getLast? = some c → isWordChar c = false)
    (hkw : upperL kw2 = "OFFSET".data)
    (hw2 : w2 ≠ []) (hw2s : ∀ c ∈ w2, pyIsSpace c = true)
    (hw3 : w3 ≠ []) (hw3s : ∀ c ∈ w3, pyIsSpace c = true)
    (hds : ds2 ≠ []) (hdsd : ∀ c ∈ ds2, c.isDigit = true) :
    parseTrailingLimit (pre ++ "LIMIT ".data ++ natDecimal n ++
        (w2 ++ kw2 ++ w3 ++ ds2)) =
      some ⟨pre, n, natDecimal n, w2 ++ kw2 ++ w3 ++ ds2⟩ := by
  obtain ⟨c, cs, hnat⟩ : ∃ c cs, (natDecimal n).reverse = c :: cs := by
    cases h : (natDecimal n).reverse with
    | nil => exact absurd (List.reverse_eq_nil_iff.mp h) (natDecimal_ne_nil n)
    | cons c cs => exact ⟨c, cs, rfl⟩
  have hdig : ∀ d ∈ (natDecimal n).reverse, d.isDigit = true := by
    intro d hd
    exact natDecimal_digits n d (List.mem_reverse.mp hd)
  obtain ⟨d, dr, hds2rev⟩ : ∃ d dr, ds2.reverse = d :: dr := by
    cases h : ds2.reverse with
    | nil => exact absurd (List.reverse_eq_nil_iff.mp h) hds
    | cons d dr => exact ⟨d, dr, rfl⟩
  have hds2dig : ∀ e ∈ ds2.reverse, e.isDigit = true := by
    intro e he
    exact hdsd e (List.mem_reverse.mp he)
  obtain ⟨e3, er3, hw3rev⟩ : ∃ e3 er3, w3.reverse = e3 :: er3 := by
    cases h : w3.reverse with
    | nil => exact absurd (List.reverse_eq_nil_iff.mp h) hw3
    | cons e3 er3 => exact ⟨e3, er3, rfl⟩
  have hw3ws : ∀ e ∈ w3.reverse, pyIsSpace e = true := by
    intro e he
    exact hw3s e (List.mem_reverse.mp he)
  have hw2ws : ∀ e ∈ w2.reverse, pyIsSpace e = true := by
    intro e he
    exact hw2s e (List.mem_reverse.mp he)
  have hkwlen : kw2.length = 6 := by
    have := congrArg List.length hkw
    simpa [upperL] using this
  have hupkwrev : upperL kw2.reverse = ['T', 'E', 'S', 'F', 'F', 'O'] := by
    have hkw2 : List.map Char.toUpper kw2 = "OFFSET".data := hkw
    unfold upperL
    rw [List.map_reverse, hkw2]
    decide
  obtain ⟨k, kr, hkwrev⟩ : ∃ k kr, kw2.reverse = k :: kr := by
    cases h : kw2.reverse with
    | nil =>
      exfalso
      rw [h] at hupkwrev
      simp [upperL] at hupkwrev
    | cons k kr => exact ⟨k, kr, rfl⟩
  have hkT : k.toUpper = 'T' := by
    rw [hkwrev] at hupkwrev
    simp only [upperL, List.map_cons, List.cons.injEq] at hupkwrev
    exact hupkwrev.1
  have hknot : pyIsSpace k = false := by
    cases hsp : pyIsSpace k
    · rfl
    · exfalso
      have h5 := space_toUpper hsp
      rw [h5] at hkT
      rw [hkT] at hsp
      exact absurd hsp (by decide)
  have hrev : (pre ++ "LIMIT ".data ++ natDecimal n ++
      (w2 ++ kw2 ++ w3 ++ ds2)).reverse =
      ds2.reverse ++ (w3.reverse ++ (kw2.reverse ++ (w2.reverse ++
        ((natDecimal n).reverse ++ ([' '] ++
          (['T', 'I', 'M', 'I', 'L'] ++ pre.reverse)))))) := by
    rw [show "LIMIT ".data = ['L', 'I', 'M', 'I', 'T', ' '] from rfl]
    simp [List.reverse_append]
  rw [parseTrailingLimit, hrev]
  unfold parseTrailingLimitRev
  dsimp only
  have h1 : (ds2.reverse ++ (w3.reverse ++ (kw2.reverse ++ (w2.reverse ++
      ((natDecimal n).reverse ++ ([' '] ++
        (['T', 'I', 'M', 'I', 'L'] ++ pre.reverse))))))).dropWhile pyIsSpace =
      ds2.reverse ++ (w3.reverse ++ (kw2.reverse ++ (w2.reverse ++
        ((natDecimal n).reverse ++ ([' '] ++
          (['T', 'I', 'M', 'I', 'L'] ++ pre.reverse)))))) := by
    rw [hds2rev]
    rw [List.cons_append, List.dropWhile_cons]
    rw [digit_not_space (hds2dig d (by rw [hds2rev]; simp))]
    simp
  have h2 : (ds2.reverse ++ (w3.reverse ++ (kw2.reverse ++ (w2.reverse ++
      ((natDecimal n).reverse ++ ([' '] ++
        (['T', 'I', 'M', 'I', 'L'] ++ pre.reverse))))))).takeWhile Char.isDigit =
      ds2.reverse := by
    rw [takeWhile_all_append _ _ _ hds2dig]
    rw [show List.takeWhile Char.isDigit (w3.reverse ++ (kw2.reverse ++ (w2.reverse ++
        ((natDecimal n).reverse ++ ([' '] ++
          (['T', 'I', 'M', 'I', 'L'] ++ pre.reverse)))))) = [] from by
      rw [hw3rev]
      rw [List.cons_append, List.takeWhile_cons]
      rw [space_not_digit (hw3ws e3 (by rw [hw3rev]; simp))]
      simp]
    exact List.append_nil _
  rw [h1, h2]
  have hne1 : ¬(ds2.reverse.isEmpty = true) := by
    rw [hds2rev]; simp
  rw [if_neg hne1]
  rw [show (ds2.reverse ++ (w3.reverse ++ (kw2.reverse ++ (w2.reverse ++
      ((natDecimal n).reverse ++ ([' '] ++
        (['T', 'I', 'M', 'I', 'L'] ++ pre.reverse))))))).drop ds2.reverse.length =
      w3.reverse ++ (kw2.reverse ++ (w2.reverse ++
        ((natDecimal n).reverse ++ ([' '] ++
          (['T', 'I', 'M', 'I', 'L'] ++ pre.reverse))))) from List.drop_left _ _]
  have h4 : (w3.reverse ++ (kw2.reverse ++ (w2.reverse ++
      ((natDecimal n).reverse ++ ([' '] ++
        (['T', 'I', 'M', 'I', 'L'] ++ pre.reverse)))))).takeWhile pyIsSpace =
      w3.reverse := by
    rw [takeWhile_all_append _ _ _ hw3ws]
    rw [show List.takeWhile pyIsSpace (kw2.reverse ++ (w2.reverse ++
        ((natDecimal n).reverse ++ ([' '] ++
          (['T', 'I', 'M', 'I', 'L'] ++ pre.reverse))))) = [] from by
      rw [hkwrev]
      rw [List.cons_append, List.takeWhile_cons, hknot]
      simp]
    exact List.append_nil _
  rw [h4]
  have hne2 : ¬(w3.reverse.isEmpty = true) := by
    rw [hw3rev]; simp
  rw [if_neg hne2]
  rw [show (w3.reverse ++ (kw2.reverse ++ (w2.reverse ++
      ((natDecimal n).reverse ++ ([' '] ++
        (['T', 'I', 'M', 'I', 'L'] ++ pre.reverse)))))).drop w3.reverse.length =
      kw2.reverse ++ (w2.reverse ++
        ((natDecimal n).reverse ++ ([' '] ++
          (['T', 'I', 'M', 'I', 'L'] ++ pre.reverse)))) from List.drop_left _ _]
  have h6 : startsWithCI (['L', 'I', 'M', 'I', 'T'].reverse)
      (kw2.reverse ++ (w2.reverse ++
        ((natDecimal n).reverse ++ ([' '] ++
          (['T', 'I', 'M', 'I', 'L'] ++ pre.reverse))))) = false := by
    cases hsw : startsWithCI (['L', 'I', 'M', 'I', 'T'].reverse)
      (kw2.reverse ++ (w2.reverse ++
        ((natDecimal n).reverse ++ ([' '] ++
          (['T', 'I', 'M', 'I', 'L'] ++ pre.reverse)))))
    · rfl
    · exfalso
      have hup := startsWithCI_upperL _ _ hsw
      rw [show ((['L', 'I', 'M', 'I', 'T'].reverse : List Char)).length = 5 from by
        decide] at hup
      rw [take_append_le 5 kw2.reverse _ (by rw [List.length_reverse, hkwlen]; omega)]
        at hup
      rw [show upperL (kw2.reverse.take 5) = (upperL kw2.reverse).take 5 from by
        simp [upperL, List.map_take]] at hup
      rw [hupkwrev] at hup
      exact absurd hup (by decide)
  rw [if_neg (show ¬(startsWithCI (['L', 'I', 'M', 'I', 'T'].reverse)
      (kw2.reverse ++ (w2.reverse ++
        ((natDecimal n).reverse ++ ([' '] ++
          (['T', 'I', 'M', 'I', 'L'] ++ pre.reverse))))) = true) from by
    rw [h6]; simp)]
  have h7 : startsWithCI (['O', 'F', 'F', 'S', 'E', 'T'].reverse)
      (kw2.reverse ++ (w2.reverse ++
        ((natDecimal n).reverse ++ ([' '] ++
          (['T', 'I', 'M', 'I', 'L'] ++ pre.reverse))))) = true := by
    apply startsWithCI_of_upperL
    rw [hupkwrev]
    decide
  rw [if_pos h7]
  rw [show (kw2.reverse ++ (w2.reverse ++
      ((natDecimal n).reverse ++ ([' '] ++
        (['T', 'I', 'M', 'I', 'L'] ++ pre.reverse))))).drop 6 =
      w2.reverse ++ ((natDecimal n).reverse ++ ([' '] ++
        (['T', 'I', 'M', 'I', 'L'] ++ pre.reverse))) from by
    rw [show (6 : Nat) = kw2.reverse.length from by rw [List.length_reverse, hkwlen]]
    exact List.drop_left _ _]
  have h9 : (w2.reverse ++ ((natDecimal n).reverse ++ ([' '] ++
      (['T', 'I', 'M', 'I', 'L'] ++ pre.reverse)))).takeWhile pyIsSpace =
      w2.reverse := by
    rw [takeWhile_all_append _ _ _ hw2ws]
    rw [show List.takeWhile pyIsSpace ((natDecimal n).reverse ++ ([' '] ++
        (['T', 'I', 'M', 'I', 'L'] ++ pre.reverse))) = [] from by
      rw [hnat]
      rw [List.cons_append, List.takeWhile_cons]
      rw [digit_not_space (hdig c (by rw [hnat]; simp))]
      simp]
    exact List.append_nil _
  rw [h9]
  have hne3 : ¬(w2.reverse.isEmpty = true) := by
    cases h : w2.reverse with
    | nil => exact absurd (List.reverse_eq_nil_iff.mp h) hw2
    | cons a t => simp
  rw [if_neg hne3]
  rw [show (w2.reverse ++ ((natDecimal n).reverse ++ ([' '] ++
      (['T', 'I', 'M', 'I', 'L'] ++ pre.reverse)))).drop w2.reverse.length =
      (natDecimal n).reverse ++ ([' '] ++
        (['T', 'I', 'M', 'I', 'L'] ++ pre.reverse)) from List.drop_left _ _]
  have h11 : ((natDecimal n).reverse ++ ([' '] ++
      (['T', 'I', 'M', 'I', 'L'] ++ pre.reverse))).takeWhile Char.isDigit =
      (natDecimal n).reverse := by
    rw [takeWhile_all_append _ _ _ hdig]
    rw [show List.takeWhile Char.isDigit ([' '] ++
      (['T', 'I', 'M', 'I', 'L'] ++ pre.reverse)) = [] from rfl]
    exact List.append_nil _
  rw [h11]
  have hne4 : ¬((natDecimal n).reverse.isEmpty = true) := by
    rw [hnat]; simp
  rw [if_neg hne4]
  rw [show ((natDecimal n).reverse ++ ([' '] ++
      (['T', 'I', 'M', 'I', 'L'] ++ pre.reverse))).drop (natDecimal n).reverse.length =
      [' '] ++ (['T', 'I', 'M', 'I', 'L'] ++ pre.reverse) from List.drop_left _ _]
  rw [show List.takeWhile pyIsSpace ([' '] ++
      (['T', 'I', 'M', 'I', 'L'] ++ pre.reverse)) = [' '] from rfl]
  rw [if_neg (show ¬((List.isEmpty [' ']) = true) from by simp)]
  rw [show List.drop (List.length [' ']) ([' '] ++
      (['T', 'I', 'M', 'I', 'L'] ++ pre.reverse)) =
      ['T', 'I', 'M', 'I', 'L'] ++ pre.reverse from rfl]
  rw [if_pos (show startsWithCI (['L', 'I', 'M', 'I', 'T'].reverse)
      (['T', 'I', 'M', 'I', 'L'] ++ pre.reverse) = true from rfl)]
  rw [show List.drop 5 (['T', 'I', 'M', 'I', 'L'] ++ pre.reverse) =
      pre.reverse from rfl]
  rw [if_pos (boundary_of_getLast hpre)]
  rw [show (kw2.reverse ++ (w2.reverse ++
      ((natDecimal n).reverse ++ ([' '] ++
        (['T', 'I', 'M', 'I', 'L'] ++ pre.reverse))))).take 6 =
      kw2.reverse from by
    rw [show (6 : Nat) = kw2.reverse.length from by rw [List.length_reverse, hkwlen]]
    exact List.take_left _ _]
  simp [List.reverse_append, List.append_assoc, digitsToNat_natDecimal]

/-- C4 counterexample: with a trailing LIMIT within the cap, the claim requires
the SQL back unchanged, but the code returns the stripped SQL: the trailing
semicolon of the input is gone. -/
theorem C4_counterexample :
    injectLimit "SELECT 1 LIMIT 5;" 10 = ("SELECT 1 LIMIT 5", some 5) ∧
    ("SELECT 1 LIMIT 5" : String) ≠ "SELECT 1 LIMIT 5;" := by
  constructor
  · decide
  · decide

/-- C4 (amended): inject_limit first strips surrounding whitespace and every
trailing semicolon, and applies the three-case rule to the stripped SQL s: if
s has no trailing LIMIT clause, the result is s with exactly one " LIMIT
cap+1" appended (which then parses back as the trailing limit of the result)
and no original limit; if s ends in LIMIT n [OFFSET m] (decomposition as
stated) with n > cap, the clause is replaced by "LIMIT cap+1" with the OFFSET
text preserved verbatim and the original limit reported as n; if n ≤ cap, the
stripped s is returned with original limit n. -/
theorem C4_amended (sql : String) (cap : Nat) :
    (parseTrailingLimit (rstripSemis (pyStrip sql.data)) = none →
      injectLimit sql cap =
        (⟨rstripSemis (pyStrip sql.data) ++ " LIMIT ".data ++ natDecimal (cap + 1)⟩, none) ∧
      parseTrailingLimit (rstripSemis (pyStrip sql.data) ++ " LIMIT ".data ++
          natDecimal (cap + 1)) =
        some ⟨rstripSemis (pyStrip sql.data) ++ [' '], cap + 1, natDecimal (cap + 1), []⟩) ∧
    (∀ m, parseTrailingLimit (rstripSemis (pyStrip sql.data)) = some m →
      (∃ kw w trail,
        rstripSemis (pyStrip sql.data) =
          m.pre ++ kw ++ w ++ m.numText ++ m.offText ++ trail ∧
        upperL kw = "LIMIT".data ∧
        w ≠ [] ∧ (∀ c ∈ w, pyIsSpace c = true) ∧
        (∀ c ∈ trail, pyIsSpace c = true) ∧
        m.numText ≠ [] ∧ (∀ c ∈ m.numText, c.isDigit = true) ∧
        digitsToNat m.numText = m.n ∧
        (∀ c, m.pre.getLast? = some c → isWordChar c = false) ∧
        (m.offText = [] ∨ ∃ w2 kw2 w3 ds2,
          m.offText = w2 ++ kw2 ++ w3 ++ ds2 ∧
          upperL kw2 = "OFFSET".data ∧
          w2 ≠ [] ∧ (∀ c ∈ w2, pyIsSpace c = true) ∧
          w3 ≠ [] ∧ (∀ c ∈ w3, pyIsSpace c = true) ∧
          ds2 ≠ [] ∧ (∀ c ∈ ds2, c.isDigit = true))) ∧
      (cap < m.n →
        injectLimit sql cap =
          (⟨m.pre ++ "LIMIT ".data ++ natDecimal (cap + 1) ++ m.offText⟩, some m.n)) ∧
      (m.n ≤ cap →
        injectLimit sql cap = (⟨rstripSemis (pyStrip sql.data)⟩, some m.n))) := by
  constructor
  · intro hn
    constructor
    · unfold injectLimit
      dsimp only
      rw [hn]
    · exact parse_append_limit _ _
  · intro m hm
    refine ⟨?_, ?_, ?_⟩
    · have := parseRev_sound (rstripSemis (pyStrip sql.data)).reverse m hm
      rwa [List.reverse_reverse] at this
    · intro hcap
      unfold injectLimit
      dsimp only
      rw [hm]
      dsimp only
      simp only [gt_iff_lt, hcap, if_true]
    · intro hcap
      unfold injectLimit
      dsimp only
      rw [hm]
      dsimp only
      simp only [gt_iff_lt, Nat.not_lt.mpr hcap, if_false]

/-- C4 witness: the amended rule applied to a query with an over-cap trailing
LIMIT and OFFSET, and to a query with no LIMIT clause. -/
theorem C4_witness :
    injectLimit "SELECT * FROM t LIMIT 200 OFFSET 10;" 100 =
      ("SELECT * FROM t LIMIT 101 OFFSET 10", some 200) ∧
    injectLimit "SELECT 1;" 3 = ("SELECT 1 LIMIT 4", none) := by
  constructor
  · have h := ((C4_amended "SELECT * FROM t LIMIT 200 OFFSET 10;" 100).2
      ⟨"SELECT * FROM t ".data, 200, "200".data, " OFFSET 10".data⟩
      (by decide)).2.1 (by decide)
    rw [h]
    decide
  · have h := ((C4_amended "SELECT 1;" 3).1 (by decide)).1
    rw [h]
    decide


/-- The pagination loop never returns more records than a positive row
bound: the loop truncates to the bound when it is reached and otherwise
stops below it. -/
theorem getAllAux_records_le {α : Type} (columns : List String) (csvOk useCsv : Bool)
    (m : Nat) (hm : 0 < m) :
    ∀ (pages : List (RSPage α)) (acc : List α) (cols : List String) (total : Nat)
      (fmt : String) (pc : Nat) (r : List α × List String × Nat × String × Nat),
      (getAllAux columns csvOk useCsv (some m) pages acc cols total fmt pc).1 = some r →
      r.1.length ≤ m := by
  intro pages
  induction pages with
  | nil =>
    intro acc cols total fmt pc r hp
    rw [getAllAux] at hp
    exact absurd hp (by simp)
  | cons p rest ih =>
    intro acc cols total fmt pc r hp
    rw [getAllAux.eq_def] at hp
    dsimp only at hp
    split at hp
    · have hr := Option.some.inj hp
      subst hr
      simp only [List.length_take, Option.getD_some]
      exact Nat.min_le_left m _
    · rename_i hcond
      split at hp
      · have hr := Option.some.inj hp
        subst hr
        simp only [Option.getD_some, Bool.and_eq_true, decide_eq_true_eq, not_and,
          not_le] at hcond
        have hlt := hcond (by omega)
        dsimp only
        omega
      · exact ih _ _ _ _ _ r hp

/-- C3 counterexample: with row cap 100 and a user query ending in LIMIT 3,
the composed path submits the query with effective limit 3, not 101. -/
theorem C3_counterexample :
    (submitQueryCore 100 ["a"] true ([⟨[(0 : Nat)], none⟩]) "SELECT a LIMIT 3").map
        (fun o => (o.limitedSql, o.originalLimit)) =
      some ("SELECT a LIMIT 3", some 3) ∧
    (parseTrailingLimit "SELECT a LIMIT 3".data).map (fun lm => lm.n) = some 3 ∧
    (3 : Nat) ≠ 100 + 1 := by
  refine ⟨by decide, by decide, by decide⟩

/-- C3 (amended): with row cap N, the composed path submits the SQL produced
by inject_limit, whose trailing limit — the effective limit — is N+1 exactly
when the stripped query has no trailing LIMIT clause or carries one whose
limit exceeds N: with no clause one " LIMIT N+1" is appended, an over-cap
clause is replaced by "LIMIT N+1" with any OFFSET text preserved verbatim
(both parse back with trailing limit N+1), and a trailing limit n ≤ N is
kept, so the effective limit can be below N+1.  At most N+1 raw records are
fetched; exactly N+1 raw records yield truncated = true with exactly N
records returned, and at most N raw records yield truncated = false with all
fetched records returned. -/
theorem C3_amended {α : Type} (maxRows : Nat) (columns : List String) (csvOk : Bool)
    (pages : List (RSPage α)) (sql : String) (o : SubmitOutcome α)
    (ho : submitQueryCore maxRows columns csvOk pages sql = some o) :
    o.limitedSql = (injectLimit sql maxRows).1 ∧
    o.originalLimit = (injectLimit sql maxRows).2 ∧
    (parseTrailingLimit (rstripSemis (pyStrip sql.data)) = none →
      o.limitedSql = ⟨rstripSemis (pyStrip sql.data) ++ " LIMIT ".data ++
        natDecimal (maxRows + 1)⟩ ∧
      parseTrailingLimit o.limitedSql.data =
        some ⟨rstripSemis (pyStrip sql.data) ++ [' '], maxRows + 1,
              natDecimal (maxRows + 1), []⟩) ∧
    (∀ lm, parseTrailingLimit (rstripSemis (pyStrip sql.data)) = some lm →
      maxRows < lm.n →
      o.limitedSql = ⟨lm.pre ++ "LIMIT ".data ++ natDecimal (maxRows + 1) ++
        lm.offText⟩ ∧
      o.originalLimit = some lm.n ∧
      parseTrailingLimit o.limitedSql.data =
        some ⟨lm.pre, maxRows + 1, natDecimal (maxRows + 1), lm.offText⟩) ∧
    (∀ lm, parseTrailingLimit (rstripSemis (pyStrip sql.data)) = some lm →
      lm.n ≤ maxRows →
      o.limitedSql = ⟨rstripSemis (pyStrip sql.data)⟩ ∧
      o.originalLimit = some lm.n ∧
      parseTrailingLimit o.limitedSql.data = some lm) ∧
    o.rawCount ≤ maxRows + 1 ∧
    (o.rawCount = maxRows + 1 → o.truncated = true ∧ o.records.length = maxRows) ∧
    (o.rawCount ≤ maxRows → o.truncated = false ∧ o.records = o.records ∧
      o.records.length = o.rawCount) := by
  unfold submitQueryCore at ho
  dsimp only at ho
  split at ho
  · exact absurd ho (by simp)
  · rename_i result heq
    have ho2 := Option.some.inj ho
    subst ho2
    have hlen : result.records.length ≤ maxRows + 1 := by
      unfold getAllStatementResults at heq
      dsimp only at heq
      split at heq
      · exact absurd heq (by simp)
      · rename_i recs cols2 total2 fmt2 pc2 heq2
        have h3 := Option.some.inj heq
        subst h3
        exact getAllAux_records_le columns csvOk true (maxRows + 1)
          (Nat.succ_pos _) _ _ _ _ _ _ _ heq2
    refine ⟨rfl, rfl, ?_, ?_, ?_, hlen, ?_, ?_⟩
    · intro hn
      have hinj : injectLimit sql maxRows =
          (⟨rstripSemis (pyStrip sql.data) ++ " LIMIT ".data ++
            natDecimal (maxRows + 1)⟩, none) := by
        unfold injectLimit
        dsimp only
        rw [hn]
      constructor
      · show (injectLimit sql maxRows).1 = _
        rw [hinj]
      · show parseTrailingLimit (injectLimit sql maxRows).1.data = _
        rw [hinj]
        exact parse_append_limit _ _
    · intro lm hm2 hgt
      have hinj : injectLimit sql maxRows =
          (⟨lm.pre ++ "LIMIT ".data ++ natDecimal (maxRows + 1) ++ lm.offText⟩,
           some lm.n) := by
        unfold injectLimit
        dsimp only
        rw [hm2]
        dsimp only
        rw [if_pos (show lm.n > maxRows from hgt)]
      obtain ⟨kw, w, trail, hseq, hupkw, hwne, hws, htrs, hnne, hndig, hdval,
        hbound, hoffsh⟩ :=
        parseRev_sound (rstripSemis (pyStrip sql.data)).reverse lm hm2
      refine ⟨?_, ?_, ?_⟩
      · show (injectLimit sql maxRows).1 = _
        rw [hinj]
      · show (injectLimit sql maxRows).2 = some lm.n
        rw [hinj]
      · show parseTrailingLimit (injectLimit sql maxRows).1.data = _
        rw [hinj]
        rcases hoffsh with hoff0 | ⟨w2, kw2, w3, ds2, hoffeq, hkw2, hw2, hw2s,
          hw3, hw3s, hds2, hds2d⟩
        · rw [hoff0, List.append_nil]
          exact parse_replace_noOff lm.pre (maxRows + 1) hbound
        · rw [hoffeq]
          exact parse_replace_off lm.pre w2 kw2 w3 ds2 (maxRows + 1) hbound hkw2
            hw2 hw2s hw3 hw3s hds2 hds2d
    · intro lm hm2 hle
      have hinj : injectLimit sql maxRows =
          (⟨rstripSemis (pyStrip sql.data)⟩, some lm.n) := by
        unfold injectLimit
        dsimp only
        rw [hm2]
        dsimp only
        rw [if_neg (show ¬(lm.n > maxRows) from by omega)]
      refine ⟨?_, ?_, ?_⟩
      · show (injectLimit sql maxRows).1 = _
        rw [hinj]
      · show (injectLimit sql maxRows).2 = some lm.n
        rw [hinj]
      · show parseTrailingLimit (injectLimit sql maxRows).1.data = some lm
        rw [hinj]
        exact hm2
    · intro hr
      have hr2 : result.records.length = maxRows + 1 := hr
      constructor
      · show decide (result.records.length > maxRows) = true
        simp [hr2]
      · show (if result.records.length > maxRows then result.records.take maxRows
          else result.records).length = maxRows
        rw [if_pos (show result.records.length > maxRows from by omega)]
        simp only [List.length_take]
        omega
    · intro hr
      have hr2 : result.records.length ≤ maxRows := hr
      refine ⟨?_, rfl, ?_⟩
      · show decide (result.records.length > maxRows) = false
        simp only [decide_eq_false_iff_not]
        omega
      · show (if result.records.length > maxRows then result.records.take maxRows
          else result.records).length = result.records.length
        rw [if_neg (show ¬(result.records.length > maxRows) from by omega)]

/-- C3 witness: the amended statement at cap 2 with a three-record page, once
for a query with no LIMIT clause and once for a query whose LIMIT 200 exceeds
the cap and is replaced by the effective limit 3 = 2+1; both fetches return
3 = 2+1 raw records, so the responses are truncated to 2. -/
theorem C3_witness :
    ("SELECT 1 LIMIT 3" : String) = (injectLimit "SELECT 1" 2).1 ∧
    ((3 : Nat) ≤ 2 + 1 ∧ (true : Bool) = true ∧ (2 : Nat) = 2) ∧
    (injectLimit "SELECT 1 LIMIT 200" 2).1 = "SELECT 1 LIMIT 3" ∧
    (injectLimit "SELECT 1 LIMIT 200" 2).2 = some 200 ∧
    parseTrailingLimit ("SELECT 1 LIMIT 3" : String).data =
      some ⟨"SELECT 1 ".data, 3, natDecimal 3, []⟩ := by
  have h1 := C3_amended 2 ["c"] true ([⟨[(10 : Nat), 20, 30], none⟩]) "SELECT 1"
      ⟨"SELECT 1 LIMIT 3", none, [10, 20], 3, true⟩ (by decide)
  have h2 := C3_amended 2 ["c"] true ([⟨[(10 : Nat), 20, 30], none⟩])
      "SELECT 1 LIMIT 200"
      ⟨"SELECT 1 LIMIT 3", some 200, [10, 20], 3, true⟩ (by decide)
  have h2c := h2.2.2.2.1 ⟨"SELECT 1 ".data, 200, "200".data, []⟩
      (by decide) (by decide)
  exact ⟨h1.1, ⟨h1.2.2.2.2.2.1, h1.2.2.2.2.2.2.1 (by decide)⟩,
    h2.1.symm, h2.2.1.symm, h2c.2.2⟩


/-- The typed-cell decoder inverts the typed-cell encoder on every value. -/
theorem decode_encode_cell (v : RSVal) : decodeCell (encodeTypedCell v) = v := by
  cases v <;> rfl

/-- Inserting a fresh key into a record dictionary appends the pair. -/
theorem pyDictInsert_not_mem {α : Type} :
    ∀ (d : List (String × α)) (k : String) (v : α),
      k ∉ d.map Prod.fst → pyDictInsert d k v = d ++ [(k, v)] := by
  intro d
  induction d with
  | nil => intro k v _; rfl
  | cons kv0 rest ih =>
    intro k v h
    obtain ⟨k0, v0⟩ := kv0
    simp only [List.map_cons, List.mem_cons, not_or] at h
    unfold pyDictInsert
    rw [show (k0 == k) = false from by
      simp only [beq_eq_false_iff_ne]
      exact fun he => h.1 he.symm]
    simp only [Bool.false_eq_true, if_false]
    rw [ih k v h.2]
    simp

/-- Folding fresh distinct keys into a record dictionary lists the pairs in
insertion order. -/
theorem foldl_insert_gen {α β : Type} (key : β → String) (val : β → α) :
    ∀ (l : List β) (d : List (String × α)),
      (l.map key).Nodup → (∀ k ∈ l.map key, k ∉ d.map Prod.fst) →
      l.foldl (fun d x => pyDictInsert d (key x) (val x)) d =
        d ++ l.map (fun x => (key x, val x)) := by
  intro l
  induction l with
  | nil => intro d _ _; simp
  | cons x l ih =>
    intro d hnd hdis
    simp only [List.map_cons, List.nodup_cons] at hnd
    simp only [List.foldl_cons]
    rw [pyDictInsert_not_mem d (key x) (val x) (hdis (key x) (by simp))]
    have hdis2 : ∀ k ∈ l.map key, k ∉ (d ++ [(key x, val x)]).map Prod.fst := by
      intro k hk hmem
      rw [List.map_append] at hmem
      rcases List.mem_append.mp hmem with hm | hm
      · exact hdis k (by simp [hk]) hm
      · simp only [List.map_cons, List.map_nil, List.mem_singleton] at hm
        exact hnd.1 (hm ▸ hk)
    rw [ih (d ++ [(key x, val x)]) hnd.2 hdis2]
    simp

/-- The record built over distinct column names keeps every value. -/
theorem buildRecord_values {α : Type} (names : List String) (vals : List α)
    (hnd : names.Nodup) (hlen : vals.length = names.length) :
    recordValues (buildRecord names vals) = vals := by
  have hkeys : ((names.zip vals).map Prod.fst).Nodup := by
    rw [List.map_fst_zip names vals (by omega)]
    exact hnd
  have h := foldl_insert_gen Prod.fst Prod.snd (names.zip vals) [] hkeys (by simp)
  unfold buildRecord
  rw [h]
  simp only [List.nil_append, recordValues, List.map_map]
  have : ((fun p => Prod.snd p) ∘ fun x => (Prod.fst x, Prod.snd x)) =
      (Prod.snd : String × α → α) := rfl
  rw [show (Prod.snd ∘ fun x => (Prod.fst x, Prod.snd x)) =
      (Prod.snd : String × α → α) from rfl]
  rw [List.map_snd_zip names vals (by omega)]

/-- The positionally-named record keeps every value when the effective column
names are distinct. -/
theorem buildRecordIdx_values {α : Type} (names : List String) (vals : List α)
    (h : ((List.range vals.length).map (colNameAt names)).Nodup) :
    recordValues (buildRecordIdx names vals) = vals := by
  have hkeys : ((vals.enum).map (fun iv => colNameAt names iv.1)).Nodup := by
    have he : (vals.enum).map (fun iv => colNameAt names iv.1) =
        ((vals.enum).map Prod.fst).map (colNameAt names) := by
      rw [List.map_map]; rfl
    rw [he, List.enum_map_fst]
    exact h
  have h2 := foldl_insert_gen (fun iv => colNameAt names iv.1)
    (fun iv : Nat × α => iv.2) (vals.enum) [] hkeys (by simp)
  unfold buildRecordIdx
  rw [h2]
  simp only [List.nil_append, recordValues, List.map_map]
  have he2 : ((Prod.snd : String × α → α) ∘
      fun iv : Nat × α => (colNameAt names iv.1, iv.2)) = Prod.snd := rfl
  rw [he2]
  exact List.enum_map_snd vals

/-- The effective column names are the given names themselves when the row is
as wide as the column list. -/
theorem colNameAt_range (names : List String) :
    (List.range names.length).map (colNameAt names) = names := by
  apply List.ext_getElem
  · simp
  · intro i h1 h2
    simp only [List.getElem_map, List.getElem_range]
    unfold colNameAt
    rw [List.get?_eq_getElem?, List.getElem?_eq_getElem h2]
    rfl

/-- Parsing the column metadata the encoders write recovers the column
names. -/
theorem columnsOf_names (names : List String) :
    (columnsOf (names.map (fun n => (⟨some n, some "varchar", none⟩ : ColMeta)))).map
      ColumnDesc.name = names := by
  apply List.ext_getElem
  · simp [columnsOf]
  · intro i h1 h2
    simp only [columnsOf, List.getElem_map, List.getElem_enum]
    rfl

/-- Typed-cell round trip: parsing the typed encoding of a row set recovers
every row, when the rows are as wide as the distinct column list. -/
theorem typed_roundtrip (names : List String) (trows : List (List RSVal))
    (hnd : names.Nodup) (htlen : ∀ r ∈ trows, r.length = names.length) :
    (parseTypedResult (encodeTypedResponse names trows)).records.map recordValues =
      trows := by
  unfold parseTypedResult encodeTypedResponse
  dsimp only
  rw [columnsOf_names]
  rw [List.map_map, List.map_map]
  have key : ∀ r ∈ trows,
      ((recordValues ∘ fun row => buildRecordIdx names (row.map decodeCell)) ∘
        fun r => r.map encodeTypedCell) r = id r := by
    intro r hr
    show recordValues (buildRecordIdx names ((r.map encodeTypedCell).map decodeCell)) = r
    rw [List.map_map]
    rw [(List.map_congr_left (fun a _ => decode_encode_cell a) :
      r.map (decodeCell ∘ encodeTypedCell) = r.map id), List.map_id]
    apply buildRecordIdx_values
    rw [htlen r hr, colNameAt_range]
    exact hnd
  rw [List.map_congr_left key, List.map_id]

/-- Rebuilding a string from its characters gives the string back. -/
theorem string_eta (s : String) : String.mk s.data = s := rfl

/-- One splitter step: an opening quote at field start. -/
theorem csvAux_fieldStart_quote (t acc : List Char) (rowAcc : List String) :
    csvAux .fieldStart ('"' :: t) acc rowAcc = csvAux .quoted t [] rowAcc := rfl

/-- One splitter step: a delimiter at field start emits an empty field. -/
theorem csvAux_fieldStart_comma (t acc : List Char) (rowAcc : List String) :
    csvAux .fieldStart (',' :: t) acc rowAcc =
      csvAux .fieldStart t [] ("" :: rowAcc) := rfl

/-- One splitter step: a row terminator at field start emits the row. -/
theorem csvAux_fieldStart_crlf (t acc : List Char) (rowAcc : List String) :
    csvAux .fieldStart ('\r' :: '\n' :: t) acc rowAcc =
      csvRowAtStart rowAcc :: csvAux .fieldStart t [] [] := rfl

/-- One splitter step: a delimiter after a field emits the pending field. -/
theorem csvAux_unquoted_comma (t acc : List Char) (rowAcc : List String) :
    csvAux .unquoted (',' :: t) acc rowAcc =
      csvAux .fieldStart t [] (String.mk acc.reverse :: rowAcc) := rfl

/-- One splitter step: a row terminator after a field emits the row. -/
theorem csvAux_unquoted_crlf (t acc : List Char) (rowAcc : List String) :
    csvAux .unquoted ('\r' :: '\n' :: t) acc rowAcc =
      csvRowOf acc rowAcc :: csvAux .fieldStart t [] [] := rfl

theorem csvAux_quoted (s : List Char) :
    ∀ (rest fieldAcc : List Char) (rowAcc : List String),
      rest.head? ≠ some '"' →
      csvAux .quoted (escapeQuotes s ++ ('"' :: rest)) fieldAcc rowAcc =
        csvAux .unquoted rest (s.reverse ++ fieldAcc) rowAcc := by
  induction s with
  | nil =>
    intro rest f r ht
    rw [show escapeQuotes [] = [] from rfl, List.nil_append, List.reverse_nil,
      List.nil_append]
    cases rest with
    | nil => rfl
    | cons a t2 =>
      have ha : ¬(a = '"') := by
        intro h; rw [h] at ht; exact ht rfl
      simp [csvAux, ha]
  | cons c s2 ih =>
    intro rest f r ht
    by_cases hc : c = '"'
    · subst hc
      rw [show escapeQuotes ('"' :: s2) = '"' :: '"' :: escapeQuotes s2 from by
        simp [escapeQuotes]]
      rw [List.cons_append, List.cons_append]
      rw [show csvAux .quoted ('"' :: '"' :: (escapeQuotes s2 ++ ('"' :: rest))) f r =
          csvAux .quoted (escapeQuotes s2 ++ ('"' :: rest)) ('"' :: f) r from rfl]
      rw [ih rest ('"' :: f) r ht]
      simp [List.reverse_cons, List.append_assoc]
    · rw [show escapeQuotes (c :: s2) = c :: escapeQuotes s2 from by
        simp [escapeQuotes, hc]]
      rw [List.cons_append]
      rw [show csvAux .quoted (c :: (escapeQuotes s2 ++ ('"' :: rest))) f r =
          csvAux .quoted (escapeQuotes s2 ++ ('"' :: rest)) (c :: f) r from by
        simp [csvAux, hc]]
      rw [ih rest (c :: f) r ht]
      simp [List.reverse_cons, List.append_assoc]

theorem intercalate_cons_cons {α : Type} (sep a b : List α) (l : List (List α)) :
    List.intercalate sep (a :: b :: l) = a ++ sep ++ List.intercalate sep (b :: l) := by
  simp [List.intercalate, List.intersperse]

theorem csvAux_fields :
    ∀ (fs : List (Option String)) (rowAcc : List String) (rest : List Char),
      fs ≠ [] → ¬(rowAcc = [] ∧ fs = [none]) →
      csvAux .fieldStart
          (List.intercalate [','] (fs.map encodeCsvField) ++ ('\r' :: '\n' :: rest))
          [] rowAcc =
        (rowAcc.reverse ++ fs.map fieldStr) :: csvAux .fieldStart rest [] [] := by
  intro fs
  induction fs with
  | nil => intro _ _ h _; exact absurd rfl h
  | cons f fs2 ih =>
    intro rowAcc rest _ hne
    cases fs2 with
    | nil =>
      cases f with
      | none =>
        have hra : rowAcc ≠ [] := fun h => hne ⟨h, rfl⟩
        rw [show List.intercalate [','] ([(none : Option String)].map encodeCsvField) =
          [] from rfl]
        rw [List.nil_append]
        rw [csvAux_fieldStart_crlf]
        rw [show csvRowAtStart rowAcc = rowAcc.reverse ++ [""] from by
          unfold csvRowAtStart
          rw [if_neg (by simpa using hra)]
          simp]
        rfl
      | some s =>
        rw [show List.intercalate [','] ([some s].map encodeCsvField) =
            encodeCsvField (some s) from by simp [List.intercalate]]
        rw [show encodeCsvField (some s) ++ ('\r' :: '\n' :: rest) =
            '"' :: (escapeQuotes s.data ++ ('"' :: ('\r' :: '\n' :: rest))) from by
          simp [encodeCsvField, List.append_assoc]]
        rw [csvAux_fieldStart_quote]
        rw [csvAux_quoted s.data ('\r' :: '\n' :: rest) [] rowAcc (by simp)]
        rw [csvAux_unquoted_crlf]
        rw [show csvRowOf (s.data.reverse ++ []) rowAcc =
            rowAcc.reverse ++ [(⟨s.data⟩ : String)] from by
          unfold csvRowOf; simp]
        rfl
    | cons f2 fs3 =>
      rw [List.map_cons, List.map_cons, intercalate_cons_cons, ← List.map_cons]
      cases f with
      | none =>
        rw [show encodeCsvField none = [] from rfl, List.nil_append]
        rw [show ([','] : List Char) ++
            List.intercalate [','] ((f2 :: fs3).map encodeCsvField) ++
            ('\r' :: '\n' :: rest) =
            ',' :: (List.intercalate [','] ((f2 :: fs3).map encodeCsvField) ++
              ('\r' :: '\n' :: rest)) from by simp]
        rw [csvAux_fieldStart_comma]
        rw [ih ("" :: rowAcc) rest (by simp) (by simp)]
        simp [List.reverse_cons, List.append_assoc, fieldStr]
      | some s =>
        rw [show encodeCsvField (some s) ++ [','] ++
            List.intercalate [','] ((f2 :: fs3).map encodeCsvField) ++
            ('\r' :: '\n' :: rest) =
            '"' :: (escapeQuotes s.data ++
              ('"' :: (',' :: (List.intercalate [','] ((f2 :: fs3).map encodeCsvField) ++
                ('\r' :: '\n' :: rest))))) from by
          simp [encodeCsvField, List.append_assoc]]
        rw [csvAux_fieldStart_quote]
        rw [csvAux_quoted s.data
          (',' :: (List.intercalate [','] ((f2 :: fs3).map encodeCsvField) ++
            ('\r' :: '\n' :: rest))) [] rowAcc (by simp)]
        rw [csvAux_unquoted_comma]
        rw [List.append_nil, List.reverse_reverse, string_eta]
        rw [ih (s :: rowAcc) rest (by simp) (by simp)]
        simp [List.reverse_cons, List.append_assoc, fieldStr]

/-- Splitting the encoded payload of a row set recovers the written field
texts row by row, when no row is the single-null row whose encoding is a
blank line. -/
theorem csvSplit_encode :
    ∀ (rows : List (List (Option String))),
      (∀ r ∈ rows, r ≠ [none]) →
      csvSplit (encodeCsvRows rows) = rows.map (fun r => r.map fieldStr) := by
  intro rows
  induction rows with
  | nil => intro _; rfl
  | cons r rows2 ih =>
    intro h
    by_cases hr0 : r = []
    · subst hr0
      show csvAux .fieldStart (encodeCsvRows ([] :: rows2)) [] [] = _
      rw [show encodeCsvRows ([] :: rows2) = '\r' :: '\n' :: encodeCsvRows rows2 from by
        simp [encodeCsvRows, encodeCsvRow, List.intercalate]]
      rw [csvAux_fieldStart_crlf]
      rw [show csvAux .fieldStart (encodeCsvRows rows2) [] [] = csvSplit
          (encodeCsvRows rows2) from rfl]
      rw [ih (fun x hx => h x (by simp [hx]))]
      rfl
    · show csvAux .fieldStart (encodeCsvRows (r :: rows2)) [] [] = _
      rw [show encodeCsvRows (r :: rows2) =
          List.intercalate [','] (r.map encodeCsvField) ++
            ('\r' :: '\n' :: encodeCsvRows rows2) from by
        simp [encodeCsvRows, encodeCsvRow, List.append_assoc]]
      rw [csvAux_fields r [] (encodeCsvRows rows2) hr0
        (fun hcon => h r (by simp) hcon.2)]
      rw [show csvAux .fieldStart (encodeCsvRows rows2) [] [] = csvSplit
          (encodeCsvRows rows2) from rfl]
      rw [ih (fun x hx => h x (by simp [hx]))]
      simp

/-- Delimited-text round trip: parsing the encoding of a row set recovers
every row, when the rows match the distinct column list in width, contain no
empty-string value, and no row is the single-null row. -/
theorem csv_roundtrip (names : List String) (rows : List (List (Option String)))
    (hnd : names.Nodup)
    (hlen : ∀ r ∈ rows, r.length = names.length)
    (hempty : ∀ r ∈ rows, ∀ v ∈ r, v ≠ some "")
    (hnull : ∀ r ∈ rows, r ≠ [none]) :
    (parseCsvResult (encodeCsvResponse names rows)).records.map recordValues = rows := by
  unfold parseCsvResult encodeCsvResponse
  dsimp only
  rw [columnsOf_names]
  cases rows with
  | nil => simp [encodeCsvRows]
  | cons r rows2 =>
    have hne : ¬((encodeCsvRows (r :: rows2)).isEmpty = true) := by
      simp [encodeCsvRows, encodeCsvRow]
    rw [if_neg hne]
    rw [csvSplit_encode (r :: rows2) hnull]
    rw [List.filter_eq_self.mpr ?hf]
    case hf =>
      intro a ha
      rcases List.mem_map.mp ha with ⟨r2, hr2, hr2e⟩
      subst hr2e
      simp [hlen r2 hr2]
    rw [List.map_map, List.map_map]
    have key : ∀ r2 ∈ r :: rows2,
        ((recordValues ∘ fun row => buildRecord names
          (row.map (fun v => if v == "" then none else some v))) ∘
          fun r3 => r3.map fieldStr) r2 = id r2 := by
      intro r2 hr2
      show recordValues (buildRecord names
        ((r2.map fieldStr).map (fun v => if v == "" then none else some v))) = r2
      rw [List.map_map]
      have hconv : ∀ v ∈ r2,
          ((fun v => if v == "" then none else some v) ∘ fieldStr) v = v := by
        intro v hv
        cases v with
        | none => rfl
        | some s =>
          have hs : ¬(s = "") := fun hcon =>
            hempty r2 hr2 (some s) hv (by rw [hcon])
          simp [fieldStr, hs]
      rw [(List.map_congr_left hconv :
        r2.map ((fun v => if v == "" then none else some v) ∘ fieldStr) = r2.map id),
        List.map_id]
      exact buildRecord_values names r2 hnd (hlen r2 hr2)
    rw [List.map_congr_left key, List.map_id]

/-- C5 counterexample: a two-column row holding an empty string survives the
width filter but decodes its empty string as null in the delimited encoding,
while the typed encoding keeps the empty string; empty string and null are
not distinguished by the delimited round trip. -/
theorem C5_counterexample :
    (parseCsvResult (encodeCsvResponse ["a", "b"] [[some "", some "x"]])).records =
      [[("a", (none : Option String)), ("b", some "x")]] ∧
    (parseTypedResult (encodeTypedResponse ["a", "b"]
        [[RSVal.vstr "", RSVal.vstr "x"]])).records.map recordValues =
      [[RSVal.vstr "", RSVal.vstr "x"]] ∧
    (some ("" : String)) ≠ none := by
  refine ⟨by decide, by decide, by decide⟩

/-- C5 (amended): the typed-cell encoding round trips exactly — the decoder
inverts the encoder on every value, and a row set as wide as the distinct
column list is recovered with null and empty string distinguished; the
delimited-text encoding round trips only for row sets that contain no
empty-string value (an empty string decodes as null) and no single-null row
(whose blank-line encoding is dropped by the width filter). -/
theorem C5_amended (names : List String) (rows : List (List (Option String)))
    (trows : List (List RSVal))
    (hnd : names.Nodup)
    (htlen : ∀ r ∈ trows, r.length = names.length)
    (hlen : ∀ r ∈ rows, r.length = names.length)
    (hempty : ∀ r ∈ rows, ∀ v ∈ r, v ≠ some "")
    (hnull : ∀ r ∈ rows, r ≠ [none]) :
    (∀ v, decodeCell (encodeTypedCell v) = v) ∧
    (parseTypedResult (encodeTypedResponse names trows)).records.map recordValues =
      trows ∧
    (parseCsvResult (encodeCsvResponse names rows)).records.map recordValues = rows :=
  ⟨decode_encode_cell,
   typed_roundtrip names trows hnd htlen,
   csv_roundtrip names rows hnd hlen hempty hnull⟩

/-- C5 witness: both round trips at two columns, with a null and a non-empty
string in the delimited rows and an integer and a null in the typed rows. -/
theorem C5_witness :
    (parseTypedResult (encodeTypedResponse ["a", "b"]
        [[RSVal.vint 3, RSVal.vnull]])).records.map recordValues =
      [[RSVal.vint 3, RSVal.vnull]] ∧
    (parseCsvResult (encodeCsvResponse ["a", "b"]
        [[some "x", none]])).records.map recordValues = [[some "x", none]] :=
  ⟨(C5_amended ["a", "b"] [[some "x", none]] [[RSVal.vint 3, RSVal.vnull]]
      (by decide) (by decide) (by decide) (by decide) (by decide)).2.1,
   (C5_amended ["a", "b"] [[some "x", none]] [[RSVal.vint 3, RSVal.vnull]]
      (by decide) (by decide) (by decide) (by decide) (by decide)).2.2⟩

end Spectra
